import Mathlib

/-!
Shallow embedding of the hotel room-allocation core:
`src/core/constants.ts`, `src/core/roomUtils.ts`, `src/core/travelTime.ts`,
`src/core/allocation.ts`.

Modelling conventions:
* Room identifiers are natural numbers (the source validates
  `Number.isInteger` and non-negativity before any arithmetic on them).
* The requested room count is a rational number, so that the source's
  `Number.isInteger(requestedRooms)` validation is expressible.
* JavaScript `Infinity` (the span sentinel) is modelled by `Option Nat`
  with `none` playing the role of `Infinity`: `spanLtB`/`spanLeB` below
  mirror IEEE comparisons of finite values with `Infinity`.
* JavaScript's stable `Array.prototype.sort` with a numeric comparator is
  modelled by `List.insertionSort` with the corresponding total preorder
  (Mathlib's insertion sort is stable).
-/

/-! ### constants.ts -/

namespace HOTEL_CONFIG

def TOTAL_FLOORS : Nat := 10

def STANDARD_ROOMS_PER_FLOOR : Nat := 10

def TOP_FLOOR_ROOMS : Nat := 7

def TOP_FLOOR : Nat := 10

def MIN_ROOMS_PER_BOOKING : Nat := 1

def MAX_ROOMS_PER_BOOKING : Nat := 5

end HOTEL_CONFIG

namespace TRAVEL_TIME

def HORIZONTAL_PER_ROOM : Nat := 1

def VERTICAL_PER_FLOOR : Nat := 2

end TRAVEL_TIME

/-- getRoomsCountForFloor: 0 outside [1, TOTAL_FLOORS], 7 on the top floor, else 10. -/
def getRoomsCountForFloor (floor : Nat) : Nat :=
  if floor < 1 ∨ floor > HOTEL_CONFIG.TOTAL_FLOORS then 0
  else if floor = HOTEL_CONFIG.TOP_FLOOR then HOTEL_CONFIG.TOP_FLOOR_ROOMS
  else HOTEL_CONFIG.STANDARD_ROOMS_PER_FLOOR

/-- generateAllRoomNumbers: nested loop, floors 1..TOTAL_FLOORS, positions
1..getRoomsCountForFloor, pushing floor*100 + position. -/
def generateAllRoomNumbers : List Nat :=
  (List.range' 1 HOTEL_CONFIG.TOTAL_FLOORS).flatMap (fun floor =>
    (List.range' 1 (getRoomsCountForFloor floor)).map (fun position => floor * 100 + position))

/-- getTotalRoomCount (constants.ts). -/
def getTotalRoomCount : Nat := generateAllRoomNumbers.length

/-! ### roomUtils.ts -/

/-- extractFloor: Math.floor(roomNumber / 100). -/
def extractFloor (roomNumber : Nat) : Nat := roomNumber / 100

/-- extractPosition: roomNumber % 100. -/
def extractPosition (roomNumber : Nat) : Nat := roomNumber % 100

/-- isValidRoomNumber: integer ≥ 100, floor within [1, TOTAL_FLOORS], position
within [1, getRoomsCountForFloor floor].  (The `Number.isInteger` test is
subsumed by the `Nat` domain.) -/
def isValidRoomNumber (roomNumber : Nat) : Bool :=
  if roomNumber < 100 then false
  else
    let floor := extractFloor roomNumber
    let position := extractPosition roomNumber
    if floor < 1 ∨ floor > HOTEL_CONFIG.TOTAL_FLOORS then false
    else if position < 1 ∨ position > getRoomsCountForFloor floor then false
    else true

/-- createRoomNumber: floor * 100 + position. -/
def createRoomNumber (floor : Nat) (position : Nat) : Nat := floor * 100 + position

/-- The comparator of sortRoomNumbers as a total preorder: floor first, then
position ("a sorts no later than b"). -/
def roomLe (a b : Nat) : Prop :=
  extractFloor a < extractFloor b ∨
    (extractFloor a = extractFloor b ∧ extractPosition a ≤ extractPosition b)

instance : DecidableRel roomLe := fun a b => by unfold roomLe; infer_instance

/-- sortRoomNumbers: stable sort by floor, then by position. -/
def sortRoomNumbers (rooms : List Nat) : List Nat := List.insertionSort roomLe rooms

/-- The comparator used for per-floor ordering: by extracted position. -/
def posLe (a b : Nat) : Prop := extractPosition a ≤ extractPosition b

instance : DecidableRel posLe := fun a b => by unfold posLe; infer_instance

/-- Stable sort of a room list by position (the `sort((a, b) => extractPosition a
- extractPosition b)` pattern of allocation.ts). -/
def sortByPosition (rooms : List Nat) : List Nat := List.insertionSort posLe rooms

/-! ### travelTime.ts -/

structure TravelTimeResult where
  totalMinutes : Nat
  verticalMinutes : Nat
  horizontalMinutes : Nat
  isValid : Bool
  errorMessage : Option String
deriving DecidableEq, Repr

/-- calculateHorizontalTime: |p1 - p2| * HORIZONTAL_PER_ROOM. -/
def calculateHorizontalTime (position1 position2 : Nat) : Nat :=
  (max position1 position2 - min position1 position2) * TRAVEL_TIME.HORIZONTAL_PER_ROOM

/-- calculateVerticalTime: |f1 - f2| * VERTICAL_PER_FLOOR. -/
def calculateVerticalTime (floor1 floor2 : Nat) : Nat :=
  (max floor1 floor2 - min floor1 floor2) * TRAVEL_TIME.VERTICAL_PER_FLOOR

/-- calculateTravelTime: validate both rooms (reporting the offending id), then
the same-room shortcut, then vertical + horizontal breakdown. -/
def calculateTravelTime (room1 room2 : Nat) : TravelTimeResult :=
  if !isValidRoomNumber room1 then
    ⟨0, 0, 0, false, some ("Invalid room number: " ++ toString room1)⟩
  else if !isValidRoomNumber room2 then
    ⟨0, 0, 0, false, some ("Invalid room number: " ++ toString room2)⟩
  else if room1 = room2 then
    ⟨0, 0, 0, true, none⟩
  else
    let verticalMinutes := calculateVerticalTime (extractFloor room1) (extractFloor room2)
    let horizontalMinutes :=
      calculateHorizontalTime (extractPosition room1) (extractPosition room2)
    ⟨verticalMinutes + horizontalMinutes, verticalMinutes, horizontalMinutes, true, none⟩

/-- calculateTotalTravelTimeForRooms: empty and singleton shortcuts, validation
of every room (first offender reported), then travel time between the first and
last room of the ascending numeric sort. -/
def calculateTotalTravelTimeForRooms (rooms : List Nat) : TravelTimeResult :=
  if rooms.length = 0 then ⟨0, 0, 0, true, none⟩
  else if rooms.length = 1 then
    if !isValidRoomNumber (rooms.headD 0) then
      ⟨0, 0, 0, false, some ("Invalid room number: " ++ toString (rooms.headD 0))⟩
    else ⟨0, 0, 0, true, none⟩
  else
    match rooms.find? (fun room => !isValidRoomNumber room) with
    | some room => ⟨0, 0, 0, false, some ("Invalid room number: " ++ toString room)⟩
    | none =>
      let sortedRooms := List.insertionSort (· ≤ ·) rooms
      calculateTravelTime (sortedRooms.headD 0) (sortedRooms.getLastD 0)

/-- calculateGroupSpan: 0 for at most one room, otherwise the total travel time
between the extremes, with `none` standing for the JavaScript `Infinity`
returned on an invalid result. -/
def calculateGroupSpan (rooms : List Nat) : Option Nat :=
  if rooms.length ≤ 1 then some 0
  else
    let result := calculateTotalTravelTimeForRooms rooms
    if result.isValid then some result.totalMinutes else none

/-! ### allocation.ts -/

structure AllocationResult where
  success : Bool
  allocatedRooms : List Nat
  travelTime : Option Nat
  errorMessage : Option String
deriving DecidableEq, Repr

structure BookingValidation where
  isValid : Bool
  error : Option String
deriving DecidableEq, Repr

/-- validateBookingRequest: integer, minimum, maximum, availability — in that
order, first failure wins.  (The constants 1 and 5 are inlined into the
messages exactly as the template literals print them.) -/
def validateBookingRequest (requestedRooms : Rat) (availableRooms : List Nat) :
    BookingValidation :=
  if !(requestedRooms.den = 1) then
    ⟨false, some "Number of rooms must be an integer"⟩
  else if requestedRooms < (HOTEL_CONFIG.MIN_ROOMS_PER_BOOKING : Rat) then
    ⟨false, some "Minimum 1 room(s) required per booking"⟩
  else if requestedRooms > (HOTEL_CONFIG.MAX_ROOMS_PER_BOOKING : Rat) then
    ⟨false, some "Maximum 5 rooms allowed per booking"⟩
  else if (availableRooms.length : Rat) < requestedRooms then
    ⟨false, some ("Not enough rooms available. Requested: " ++ toString requestedRooms.num
      ++ ", Available: " ++ toString availableRooms.length)⟩
  else ⟨true, none⟩

/-- groupRoomsByFloor followed by `get(floor) || []`: the rooms of one floor, in
input order, then stably sorted by position. -/
def floorRoomsOf (rooms : List Nat) (floor : Nat) : List Nat :=
  sortByPosition (rooms.filter (fun room => extractFloor room = floor))

/-- Comparison of two spans, `none` standing for Infinity (so `none < x` is
always false and `some a < none` is always true, as for IEEE Infinity). -/
def spanLtB : Option Nat → Option Nat → Bool
  | some a, some b => decide (a < b)
  | some _, none => true
  | none, _ => false

/-- Non-strict span comparison (complement of `spanLtB` in the other order). -/
def spanLeB : Option Nat → Option Nat → Bool
  | _, none => true
  | some a, some b => decide (a ≤ b)
  | none, some _ => false

/-- The `block[0] < bestBlock[0]` tiebreaker test against the current best
(false while no best exists, mirroring `bestBlock && ...`). -/
def headLtB (candidate : List Nat) : Option (List Nat) → Bool
  | some best => decide (candidate.headD 0 < best.headD 0)
  | none => false

/-- One loop iteration of the three best-candidate searches of allocation.ts:
replace the best when the span strictly improves, or on a span tie when the
candidate's first room is lower. -/
def stepBest (acc : Option (List Nat) × Option Nat) (candidate : List Nat) :
    Option (List Nat) × Option Nat :=
  let span := calculateGroupSpan candidate
  if spanLtB span acc.2 then (some candidate, span)
  else if span = acc.2 ∧ headLtB candidate acc.1 then (some candidate, span)
  else acc

/-- The sliding windows `sorted.slice(i, i + count)` for `0 ≤ i ≤ length - count`. -/
def windowsOf (sorted : List Nat) (count : Nat) : List (List Nat) :=
  (List.range (sorted.length - count + 1)).map (fun i => (sorted.drop i).take count)

/-- The contiguity test of findBestContiguousBlock: consecutive position
differences are exactly 1 throughout (differences taken as integers, as in
JavaScript). -/
def isContiguousB : List Nat → Bool
  | a :: b :: rest =>
    decide ((extractPosition b : Int) - (extractPosition a : Int) = 1) && isContiguousB (b :: rest)
  | _ => true

/-- findBestContiguousBlock: over the position-sorted floor rooms, scan every
size-`count` window, skipping non-contiguous ones (skipping an iteration is
folding over the filtered window list), keeping the minimum-span window with
the `block[0]` tiebreaker. -/
def findBestContiguousBlock (floorRooms : List Nat) (count : Nat) : Option (List Nat) :=
  if floorRooms.length < count then none
  else
    let sorted := sortByPosition floorRooms
    ((((windowsOf sorted count).filter isContiguousB).foldl stepBest (none, none))).1

/-- findBestSameFloorBlock: contiguous search first, else the minimum-span
sliding window of the position-sorted list (same update rule). -/
def findBestSameFloorBlock (floorRooms : List Nat) (count : Nat) : Option (List Nat) :=
  if floorRooms.length < count then none
  else
    match findBestContiguousBlock floorRooms count with
    | some contiguous => some contiguous
    | none =>
      let sorted := sortByPosition floorRooms
      (((windowsOf sorted count).foldl stepBest (none, none))).1

/-- generateCombinations: the backtracking enumeration by first index.  All
combinations containing the first item (in enumeration order) precede those
that skip it, exactly the order of the source's `combine(start, current)`
recursion; the source's early returns and remaining-length pruning do not
change the produced list. -/
def generateCombinations : List Nat → Nat → List (List Nat)
  | _, 0 => [[]]
  | [], _ + 1 => []
  | x :: xs, k + 1 =>
    ((generateCombinations xs k).map (fun c => x :: c)) ++ generateCombinations xs (k + 1)

/-- findBestCrossFloorAllocation: evaluate every combination of the sorted
available rooms, keeping the minimum span with the `combo[0]` tiebreaker
(the separate strict/tie branches of the source coincide with `stepBest`,
since on a tie the recorded best span is unchanged). -/
def findBestCrossFloorAllocation (availableRooms : List Nat) (count : Nat) :
    Option (List Nat) :=
  if availableRooms.length < count then none
  else
    let sorted := sortRoomNumbers availableRooms
    (((generateCombinations sorted count).foldl stepBest (none, none))).1

/-- The running best of the single-floor loop of allocateRooms (step 3). -/
structure SingleFloorBest where
  alloc : Option (List Nat)
  tt : Option Nat
  floor : Nat
deriving DecidableEq, Repr

/-- One iteration of the single-floor loop: floors with enough rooms offer
their best same-floor block; it replaces the running best on a strictly
smaller travel time, or on a tie with a lower floor number. -/
def floorStep (availableRooms : List Nat) (count : Nat) (acc : SingleFloorBest)
    (floor : Nat) : SingleFloorBest :=
  let floorRooms := floorRoomsOf availableRooms floor
  if count ≤ floorRooms.length then
    match findBestSameFloorBlock floorRooms count with
    | some allocation =>
      let travelTime := calculateGroupSpan allocation
      if spanLtB travelTime acc.tt ∨ (travelTime = acc.tt ∧ floor < acc.floor) then
        ⟨some allocation, travelTime, floor⟩
      else acc
    | none => acc
  else acc

/-- Steps 2-5 of allocateRooms, after validation has succeeded and the
requested count is known to be a natural number. -/
def allocateCore (count : Nat) (availableRooms : List Nat) : AllocationResult :=
  let best := (List.range' 1 HOTEL_CONFIG.TOTAL_FLOORS).foldl
    (floorStep availableRooms count) ⟨none, none, 0⟩
  match best.alloc with
  | some allocation => ⟨true, sortRoomNumbers allocation, best.tt, none⟩
  | none =>
    match findBestCrossFloorAllocation availableRooms count with
    | some crossFloorAllocation =>
      ⟨true, sortRoomNumbers crossFloorAllocation,
        calculateGroupSpan crossFloorAllocation, none⟩
    | none => ⟨false, [], some 0, some "Unable to allocate rooms"⟩

/-- allocateRooms: validation (first failure wins) and then the search.  After
validation the requested count is a non-negative integer, so the search runs
on `requestedRooms.num.toNat`. -/
def allocateRooms (requestedRooms : Rat) (availableRooms : List Nat) : AllocationResult :=
  let validation := validateBookingRequest requestedRooms availableRooms
  if !validation.isValid then ⟨false, [], some 0, validation.error⟩
  else allocateCore requestedRooms.num.toNat availableRooms

/-- canAllocate: true iff allocateRooms succeeds. -/
def canAllocate (requestedRooms : Rat) (availableRooms : List Nat) : Bool :=
  (allocateRooms requestedRooms availableRooms).success

/-! ### Basic facts about room addressing and the sort comparators -/

theorem roomLe_iff_le (a b : Nat) : roomLe a b ↔ a ≤ b := by
  unfold roomLe extractFloor extractPosition
  omega

theorem posLe_iff_le_of_floor_eq {a b : Nat} (h : extractFloor a = extractFloor b) :
    posLe a b ↔ a ≤ b := by
  unfold posLe extractPosition
  unfold extractFloor at h
  omega

instance : IsTotal Nat roomLe :=
  ⟨fun a b => by
    rcases Nat.le_total a b with h | h
    · exact Or.inl ((roomLe_iff_le a b).mpr h)
    · exact Or.inr ((roomLe_iff_le b a).mpr h)⟩

instance : IsTrans Nat roomLe :=
  ⟨fun a b c hab hbc =>
    (roomLe_iff_le a c).mpr (((roomLe_iff_le a b).mp hab).trans ((roomLe_iff_le b c).mp hbc))⟩

instance : IsTotal Nat posLe :=
  ⟨fun a b => by
    unfold posLe
    exact Nat.le_total _ _⟩

instance : IsTrans Nat posLe :=
  ⟨fun _ _ _ hab hbc => Nat.le_trans hab hbc⟩

theorem sortRoomNumbers_perm (l : List Nat) : (sortRoomNumbers l).Perm l :=
  List.perm_insertionSort roomLe l

theorem sortRoomNumbers_sorted (l : List Nat) :
    List.Sorted (· ≤ ·) (sortRoomNumbers l) :=
  (List.sorted_insertionSort roomLe l).imp (fun h => (roomLe_iff_le _ _).mp h)

theorem sortByPosition_perm (l : List Nat) : (sortByPosition l).Perm l :=
  List.perm_insertionSort posLe l

theorem sortByPosition_sorted (l : List Nat) :
    List.Sorted posLe (sortByPosition l) :=
  List.sorted_insertionSort posLe l

theorem sortByPosition_sorted_le_of_sameFloor {l : List Nat} {f : Nat}
    (hf : ∀ x ∈ l, extractFloor x = f) :
    List.Sorted (· ≤ ·) (sortByPosition l) := by
  have hmem : ∀ x ∈ sortByPosition l, extractFloor x = f := fun x hx =>
    hf x ((sortByPosition_perm l).mem_iff.mp hx)
  exact (sortByPosition_sorted l).imp_of_mem (fun ha hb h =>
    (posLe_iff_le_of_floor_eq ((hmem _ ha).trans (hmem _ hb).symm)).mp h)

theorem numericSort_perm (l : List Nat) : (List.insertionSort (· ≤ ·) l).Perm l :=
  List.perm_insertionSort _ l

theorem numericSort_sorted (l : List Nat) :
    List.Sorted (· ≤ ·) (List.insertionSort (· ≤ ·) l) :=
  List.sorted_insertionSort _ l

/-! ### Head and last of sorted lists -/

theorem headD_mem {l : List Nat} (h : l ≠ []) : l.headD 0 ∈ l := by
  cases l with
  | nil => exact absurd rfl h
  | cons a t => exact List.mem_cons_self a t

theorem getLastD_irrel {a : Nat} {t : List Nat} (d : Nat) :
    (a :: t).getLastD d = (a :: t).getLastD 0 := by
  rw [List.getLastD_cons, List.getLastD_cons]

theorem getLastD_mem : ∀ {l : List Nat}, l ≠ [] → l.getLastD 0 ∈ l
  | [], h => absurd rfl h
  | [a], _ => by simp
  | a :: b :: t, _ => by
    rw [List.getLastD_cons, getLastD_irrel]
    exact List.mem_cons_of_mem a (getLastD_mem (List.cons_ne_nil b t))

theorem headD_le_of_sorted {l : List Nat} (h : List.Sorted (· ≤ ·) l) :
    ∀ x ∈ l, l.headD 0 ≤ x := by
  cases l with
  | nil => intro x hx; cases hx
  | cons a t =>
    intro x hx
    rcases List.mem_cons.mp hx with rfl | hx
    · exact Nat.le_refl _
    · exact List.rel_of_sorted_cons h x hx

theorem le_getLastD_of_sorted {l : List Nat} (h : List.Sorted (· ≤ ·) l) :
    ∀ x ∈ l, x ≤ l.getLastD 0 := by
  induction l with
  | nil => intro x hx; cases hx
  | cons a t ih =>
    intro x hx
    cases t with
    | nil =>
      rcases List.mem_cons.mp hx with rfl | hx
      · exact Nat.le_refl _
      · cases hx
    | cons b u =>
      have hrest : List.Sorted (· ≤ ·) (b :: u) := h.of_cons
      have hlast : (a :: b :: u).getLastD 0 = (b :: u).getLastD 0 := by
        rw [List.getLastD_cons, getLastD_irrel]
      rw [hlast]
      rcases List.mem_cons.mp hx with rfl | hx
      · exact Nat.le_trans (List.rel_of_sorted_cons h b (List.mem_cons_self b u))
          (ih hrest b (List.mem_cons_self b u))
      · exact ih hrest x hx

/-! ### Span comparison facts -/

/-- The span recorded for the current best candidate (`none` when there is no
best yet, matching the `bestSpan = Infinity` initialisation). -/
def spanOf : Option (List Nat) → Option Nat
  | none => none
  | some b => calculateGroupSpan b

theorem spanLtB_none_left (x : Option Nat) : spanLtB none x = false := by
  cases x <;> rfl

theorem spanLeB_none_right (x : Option Nat) : spanLeB x none = true := by
  cases x <;> rfl

theorem spanLeB_refl (x : Option Nat) : spanLeB x x = true := by
  cases x with
  | none => rfl
  | some a => simp [spanLeB]

theorem not_spanLtB_iff {a b : Option Nat} : spanLtB a b = false ↔ spanLeB b a = true := by
  cases a <;> cases b <;> simp [spanLtB, spanLeB] <;> omega

theorem spanLtB_iff_not_spanLeB {a b : Option Nat} :
    spanLtB a b = true ↔ ¬ spanLeB b a = true := by
  rw [← not_spanLtB_iff]
  simp

theorem spanLeB_trans {a b c : Option Nat} (hab : spanLeB a b = true)
    (hbc : spanLeB b c = true) : spanLeB a c = true := by
  cases a <;> cases b <;> cases c <;> simp_all [spanLeB] <;> omega

theorem spanLeB_antisymm {a b : Option Nat} (hab : spanLeB a b = true)
    (hba : spanLeB b a = true) : a = b := by
  cases a <;> cases b <;> simp_all [spanLeB] <;> omega

theorem spanLeB_of_spanLtB {a b : Option Nat} (h : spanLtB a b = true) :
    spanLeB a b = true := by
  cases a <;> cases b <;> simp_all [spanLtB, spanLeB] <;> omega

theorem spanLtB_some_of_some {a : Nat} {b : Option Nat} (h : spanLtB b (some a) = true) :
    ∃ c, b = some c ∧ c < a := by
  cases b with
  | none => simp [spanLtB] at h
  | some c => exact ⟨c, rfl, by simpa [spanLtB] using h⟩

/-! ### Facts about calculateGroupSpan -/

theorem calculateGroupSpan_small {rooms : List Nat} (h : rooms.length ≤ 1) :
    calculateGroupSpan rooms = some 0 := by
  unfold calculateGroupSpan
  simp [h]

theorem calculateTotalTravelTimeForRooms_of_big_valid {rooms : List Nat}
    (hlen : 2 ≤ rooms.length) (hv : ∀ r ∈ rooms, isValidRoomNumber r = true) :
    calculateTotalTravelTimeForRooms rooms =
      calculateTravelTime ((List.insertionSort (· ≤ ·) rooms).headD 0)
        ((List.insertionSort (· ≤ ·) rooms).getLastD 0) := by
  unfold calculateTotalTravelTimeForRooms
  have h0 : ¬ rooms.length = 0 := by omega
  have h1 : ¬ rooms.length = 1 := by omega
  have hfind : rooms.find? (fun room => !isValidRoomNumber room) = none := by
    rw [List.find?_eq_none]
    intro x hx
    simp [hv x hx]
  simp only [h0, if_false, h1, hfind]

theorem calculateTotalTravelTimeForRooms_invalid {rooms : List Nat}
    (hlen : 2 ≤ rooms.length) (hv : ∃ r ∈ rooms, isValidRoomNumber r = false) :
    (calculateTotalTravelTimeForRooms rooms).isValid = false := by
  unfold calculateTotalTravelTimeForRooms
  have h0 : ¬ rooms.length = 0 := by omega
  have h1 : ¬ rooms.length = 1 := by omega
  obtain ⟨r, hr, hrv⟩ := hv
  cases hfind : rooms.find? (fun room => !isValidRoomNumber room) with
  | none =>
    rw [List.find?_eq_none] at hfind
    exact absurd (by simp [hrv] : (fun room => !isValidRoomNumber room) r = true)
      (by simpa using hfind r hr)
  | some bad => simp only [h0, if_false, h1, hfind]

theorem calculateGroupSpan_invalid {rooms : List Nat}
    (hlen : 2 ≤ rooms.length) (hv : ∃ r ∈ rooms, isValidRoomNumber r = false) :
    calculateGroupSpan rooms = none := by
  unfold calculateGroupSpan
  have h1 : ¬ rooms.length ≤ 1 := by omega
  simp only [h1, if_false, calculateTotalTravelTimeForRooms_invalid hlen hv, Bool.false_eq_true]

theorem calculateTravelTime_of_valid {room1 room2 : Nat}
    (h1 : isValidRoomNumber room1 = true) (h2 : isValidRoomNumber room2 = true) :
    calculateTravelTime room1 room2 =
      if room1 = room2 then ⟨0, 0, 0, true, none⟩
      else
        ⟨calculateVerticalTime (extractFloor room1) (extractFloor room2) +
            calculateHorizontalTime (extractPosition room1) (extractPosition room2),
          calculateVerticalTime (extractFloor room1) (extractFloor room2),
          calculateHorizontalTime (extractPosition room1) (extractPosition room2), true, none⟩ := by
  unfold calculateTravelTime
  simp [h1, h2]

theorem calculateGroupSpan_big_valid {rooms : List Nat}
    (hlen : 2 ≤ rooms.length) (hv : ∀ r ∈ rooms, isValidRoomNumber r = true) :
    calculateGroupSpan rooms =
      some ((calculateTravelTime ((List.insertionSort (· ≤ ·) rooms).headD 0)
        ((List.insertionSort (· ≤ ·) rooms).getLastD 0)).totalMinutes) := by
  unfold calculateGroupSpan
  have h1 : ¬ rooms.length ≤ 1 := by omega
  rw [calculateTotalTravelTimeForRooms_of_big_valid hlen hv]
  have hne : List.insertionSort (· ≤ ·) rooms ≠ [] := by
    intro hcon
    have := List.length_insertionSort (· ≤ ·) rooms
    rw [hcon] at this
    simp at this
    omega
  have hh : isValidRoomNumber ((List.insertionSort (· ≤ ·) rooms).headD 0) = true :=
    hv _ ((numericSort_perm rooms).mem_iff.mp (headD_mem hne))
  have hl : isValidRoomNumber ((List.insertionSort (· ≤ ·) rooms).getLastD 0) = true :=
    hv _ ((numericSort_perm rooms).mem_iff.mp (getLastD_mem hne))
  rw [calculateTravelTime_of_valid hh hl]
  simp only [h1, if_false]
  split <;> simp

theorem calculateGroupSpan_isSome_of_valid {rooms : List Nat}
    (hv : ∀ r ∈ rooms, isValidRoomNumber r = true) :
    ∃ m, calculateGroupSpan rooms = some m := by
  by_cases hlen : rooms.length ≤ 1
  · exact ⟨0, calculateGroupSpan_small hlen⟩
  · exact ⟨_, calculateGroupSpan_big_valid (by omega) hv⟩

theorem calculateGroupSpan_perm {l1 l2 : List Nat} (h : l1.Perm l2) :
    calculateGroupSpan l1 = calculateGroupSpan l2 := by
  have hlen : l1.length = l2.length := h.length_eq
  by_cases hsmall : l1.length ≤ 1
  · rw [calculateGroupSpan_small hsmall, calculateGroupSpan_small (hlen ▸ hsmall)]
  · have h2 : 2 ≤ l1.length := by omega
    by_cases hval : ∀ r ∈ l1, isValidRoomNumber r = true
    · have hval2 : ∀ r ∈ l2, isValidRoomNumber r = true := fun r hr =>
        hval r (h.mem_iff.mpr hr)
      have hsorteq : List.insertionSort (· ≤ ·) l1 = List.insertionSort (· ≤ ·) l2 :=
        List.eq_of_perm_of_sorted ((numericSort_perm l1).trans (h.trans (numericSort_perm l2).symm))
          (numericSort_sorted l1) (numericSort_sorted l2)
      rw [calculateGroupSpan_big_valid h2 hval, calculateGroupSpan_big_valid (hlen ▸ h2) hval2,
        hsorteq]
    · push_neg at hval
      obtain ⟨r, hr, hrv⟩ := hval
      have hrv' : isValidRoomNumber r = false := by
        cases hb : isValidRoomNumber r
        · rfl
        · exact absurd hb hrv
      rw [calculateGroupSpan_invalid h2 ⟨r, hr, hrv'⟩,
        calculateGroupSpan_invalid (hlen ▸ h2) ⟨r, h.mem_iff.mp hr, hrv'⟩]

/-! ### The best-candidate fold -/

theorem stepBest_eq (acc : Option (List Nat) × Option Nat) (c : List Nat) :
    stepBest acc c =
      if spanLtB (calculateGroupSpan c) acc.2 then (some c, calculateGroupSpan c)
      else if calculateGroupSpan c = acc.2 ∧ headLtB c acc.1 then
        (some c, calculateGroupSpan c)
      else acc := rfl

/-- Full characterisation of the `bestSpan`/`bestBlock` loop shared by the
searches of allocation.ts: consistency of the recorded span, monotonicity,
minimality over all candidates, provenance of the winner, improvement over the
initial best, and the first-room tiebreak for span ties. -/
theorem foldl_stepBest_spec (l : List (List Nat)) :
    ∀ acc : Option (List Nat) × Option Nat, acc.2 = spanOf acc.1 →
      ((l.foldl stepBest acc).2 = spanOf (l.foldl stepBest acc).1)
      ∧ spanLeB (l.foldl stepBest acc).2 acc.2 = true
      ∧ (∀ c ∈ l, spanLeB (l.foldl stepBest acc).2 (calculateGroupSpan c) = true)
      ∧ (l.foldl stepBest acc = acc ∨ ∃ b ∈ l, (l.foldl stepBest acc).1 = some b)
      ∧ (∀ b0, acc.1 = some b0 → (l.foldl stepBest acc).2 = acc.2 →
          ∃ b, (l.foldl stepBest acc).1 = some b ∧ b.headD 0 ≤ b0.headD 0)
      ∧ (∀ c ∈ l, calculateGroupSpan c = (l.foldl stepBest acc).2 →
          (l.foldl stepBest acc).2 ≠ none →
          ∃ b, (l.foldl stepBest acc).1 = some b ∧ b.headD 0 ≤ c.headD 0) := by
  induction l with
  | nil =>
    intro acc hcons
    refine ⟨hcons, spanLeB_refl _, ?_, Or.inl rfl, ?_, ?_⟩
    · intro c hc; cases hc
    · intro b0 hb0 _; exact ⟨b0, hb0, Nat.le_refl _⟩
    · intro c hc; cases hc
  | cons c t ih =>
    intro acc hcons
    rw [List.foldl_cons]
    by_cases hU1 : spanLtB (calculateGroupSpan c) acc.2 = true
    · -- strict improvement: the candidate becomes the best
      have hstep : stepBest acc c = (some c, calculateGroupSpan c) := by
        rw [stepBest_eq, if_pos hU1]
      rw [hstep]
      obtain ⟨ihcons, ihle, ihmin, ihprov, ihimp, ihtie⟩ :=
        ih (some c, calculateGroupSpan c) rfl
      refine ⟨ihcons, ?_, ?_, ?_, ?_, ?_⟩
      · exact spanLeB_trans ihle (spanLeB_of_spanLtB hU1)
      · intro c2 hc2
        rcases List.mem_cons.mp hc2 with rfl | hc2
        · exact ihle
        · exact ihmin c2 hc2
      · rcases ihprov with heq | ⟨b, hb, hbeq⟩
        · exact Or.inr ⟨c, List.mem_cons_self c t, by rw [heq]⟩
        · exact Or.inr ⟨b, List.mem_cons_of_mem c hb, hbeq⟩
      · intro b0 _ hr2
        have hle2 : spanLeB (t.foldl stepBest (some c, calculateGroupSpan c)).2
            (calculateGroupSpan c) = true := ihle
        rw [hr2] at hle2
        exact absurd hU1 (by rw [spanLtB_iff_not_spanLeB]; simp [hle2])
      · intro c2 hc2 hspan hne
        rcases List.mem_cons.mp hc2 with rfl | hc2
        · exact ihimp c2 rfl hspan.symm
        · exact ihtie c2 hc2 hspan hne
    · by_cases hU2 : calculateGroupSpan c = acc.2 ∧ headLtB c acc.1 = true
      · -- span tie with a lower first room: the candidate becomes the best
        have hstep : stepBest acc c = (some c, calculateGroupSpan c) := by
          rw [stepBest_eq, if_neg (by simp [hU1]), if_pos (by exact ⟨hU2.1, hU2.2⟩)]
        rw [hstep]
        obtain ⟨hspan_eq, hhead⟩ := hU2
        obtain ⟨b0, hb0, hb0lt⟩ : ∃ b0, acc.1 = some b0 ∧ c.headD 0 < b0.headD 0 := by
          cases hacc : acc.1 with
          | none => rw [hacc] at hhead; simp [headLtB] at hhead
          | some b0 =>
            rw [hacc] at hhead
            exact ⟨b0, rfl, by simpa [headLtB] using hhead⟩
        obtain ⟨ihcons, ihle, ihmin, ihprov, ihimp, ihtie⟩ :=
          ih (some c, calculateGroupSpan c) rfl
        refine ⟨ihcons, ?_, ?_, ?_, ?_, ?_⟩
        · rw [← hspan_eq]; exact ihle
        · intro c2 hc2
          rcases List.mem_cons.mp hc2 with rfl | hc2
          · exact ihle
          · exact ihmin c2 hc2
        · rcases ihprov with heq | ⟨b, hb, hbeq⟩
          · exact Or.inr ⟨c, List.mem_cons_self c t, by rw [heq]⟩
          · exact Or.inr ⟨b, List.mem_cons_of_mem c hb, hbeq⟩
        · intro b1 hb1 hr2
          rw [hb1] at hb0
          obtain rfl : b1 = b0 := by injection hb0
          rw [← hspan_eq] at hr2
          obtain ⟨b, hb, hble⟩ := ihimp c rfl hr2
          exact ⟨b, hb, Nat.le_trans hble (Nat.le_of_lt hb0lt)⟩
        · intro c2 hc2 hspan hne
          rcases List.mem_cons.mp hc2 with rfl | hc2
          · exact ihimp c2 rfl hspan.symm
          · exact ihtie c2 hc2 hspan hne
      · -- no update
        have hstep : stepBest acc c = acc := by
          rw [stepBest_eq, if_neg (by simp [hU1]), if_neg hU2]
        rw [hstep]
        have hge : spanLeB acc.2 (calculateGroupSpan c) = true :=
          not_spanLtB_iff.mp (by simpa using hU1)
        obtain ⟨ihcons, ihle, ihmin, ihprov, ihimp, ihtie⟩ := ih acc hcons
        refine ⟨ihcons, ihle, ?_, ?_, ihimp, ?_⟩
        · intro c2 hc2
          rcases List.mem_cons.mp hc2 with rfl | hc2
          · exact spanLeB_trans ihle hge
          · exact ihmin c2 hc2
        · rcases ihprov with heq | ⟨b, hb, hbeq⟩
          · exact Or.inl heq
          · exact Or.inr ⟨b, List.mem_cons_of_mem c hb, hbeq⟩
        · intro c2 hc2 hspan hne
          rcases List.mem_cons.mp hc2 with rfl | hc2
          · -- the tie case against the skipped candidate
            have hacc2 : acc.2 = calculateGroupSpan c2 := by
              refine spanLeB_antisymm ?_ ?_
              · exact hge
              · rw [hspan]; exact ihle
            cases hacc1 : acc.1 with
            | none =>
              rw [hacc1] at hcons
              simp only [spanOf] at hcons
              rw [hcons] at hacc2
              rw [← hspan] at hne
              exact absurd hacc2.symm hne
            | some b0 =>
              have hnotlt : ¬ (c2.headD 0 < b0.headD 0) := by
                intro hlt
                exact hU2 ⟨hacc2.symm, by rw [hacc1]; exact decide_eq_true hlt⟩
              obtain ⟨b, hb, hble⟩ := ihimp b0 hacc1 (by rw [← hspan]; exact hacc2.symm)
              exact ⟨b, hb, Nat.le_trans hble (Nat.le_of_not_lt hnotlt)⟩
          · exact ihtie c2 hc2 hspan hne

/-! ### Windows, combinations, and validity characterisations -/

theorem foldl_skip_eq_foldl_filter {α β : Type} (p : α → Bool) (f : β → α → β) :
    ∀ (l : List α) (acc : β),
      l.foldl (fun a x => if p x then f a x else a) acc = (l.filter p).foldl f acc := by
  intro l
  induction l with
  | nil => intro acc; rfl
  | cons x t ih =>
    intro acc
    rw [List.foldl_cons]
    cases hp : p x with
    | true => rw [if_pos rfl, List.filter_cons_of_pos hp, List.foldl_cons, ih]
    | false =>
      rw [if_neg (by simp), List.filter_cons_of_neg (by simp [hp]), ih]

theorem mem_windowsOf {s w : List Nat} {k : Nat} :
    w ∈ windowsOf s k ↔ ∃ i, i < s.length - k + 1 ∧ w = (s.drop i).take k := by
  unfold windowsOf
  simp only [List.mem_map, List.mem_range]
  constructor
  · rintro ⟨i, hi, rfl⟩; exact ⟨i, hi, rfl⟩
  · rintro ⟨i, hi, rfl⟩; exact ⟨i, hi, rfl⟩

theorem length_of_mem_windowsOf {s w : List Nat} {k : Nat} (hk : k ≤ s.length)
    (hw : w ∈ windowsOf s k) : w.length = k := by
  obtain ⟨i, hi, rfl⟩ := mem_windowsOf.mp hw
  rw [List.length_take, List.length_drop]
  omega

theorem sublist_of_mem_windowsOf {s w : List Nat} {k : Nat} (hw : w ∈ windowsOf s k) :
    w.Sublist s := by
  obtain ⟨i, _, rfl⟩ := mem_windowsOf.mp hw
  exact ((s.drop i).take_sublist k).trans (s.drop_sublist i)

theorem take_mem_windowsOf {s : List Nat} {k : Nat} : s.take k ∈ windowsOf s k :=
  mem_windowsOf.mpr ⟨0, by omega, by rw [List.drop_zero]⟩

theorem mem_generateCombinations :
    ∀ (l : List Nat) (k : Nat) (c : List Nat),
      c ∈ generateCombinations l k ↔ c.Sublist l ∧ c.length = k := by
  intro l
  induction l with
  | nil =>
    intro k c
    cases k with
    | zero =>
      simp only [generateCombinations, List.mem_singleton]
      constructor
      · rintro rfl; exact ⟨List.Sublist.refl [], rfl⟩
      · rintro ⟨hs, hlen⟩
        cases c with
        | nil => rfl
        | cons a t => exact absurd hs (by simp)
    | succ k =>
      simp only [generateCombinations, List.not_mem_nil, false_iff, not_and]
      intro hs
      rw [List.sublist_nil.mp hs]
      simp
  | cons x xs ih =>
    intro k c
    cases k with
    | zero =>
      simp only [generateCombinations, List.mem_singleton]
      constructor
      · rintro rfl; exact ⟨List.nil_sublist _, rfl⟩
      · rintro ⟨_, hlen⟩
        exact List.length_eq_zero.mp hlen
    | succ k =>
      simp only [generateCombinations, List.mem_append, List.mem_map]
      constructor
      · rintro (⟨c2, hc2, rfl⟩ | hc)
        · obtain ⟨hs, hlen⟩ := (ih k c2).mp hc2
          exact ⟨List.Sublist.cons₂ x hs, by simp [hlen]⟩
        · obtain ⟨hs, hlen⟩ := (ih (k + 1) c).mp hc
          exact ⟨hs.cons x, hlen⟩
      · rintro ⟨hs, hlen⟩
        rcases List.sublist_cons_iff.mp hs with hs2 | ⟨r, rfl, hr⟩
        · exact Or.inr ((ih (k + 1) c).mpr ⟨hs2, hlen⟩)
        · exact Or.inl ⟨r, (ih k r).mpr ⟨hr, by simpa using hlen⟩, rfl⟩

theorem isValidRoomNumber_iff {n : Nat} :
    isValidRoomNumber n = true ↔
      100 ≤ n ∧ 1 ≤ extractFloor n ∧ extractFloor n ≤ 10 ∧
        1 ≤ extractPosition n ∧ extractPosition n ≤ getRoomsCountForFloor (extractFloor n) := by
  unfold isValidRoomNumber HOTEL_CONFIG.TOTAL_FLOORS
  by_cases h1 : n < 100
  · simp only [h1, if_true]
    constructor
    · intro h; cases h
    · intro h; omega
  · simp only [h1, if_false]
    by_cases h2 : extractFloor n < 1 ∨ extractFloor n > 10
    · simp only [h2, if_true]
      constructor
      · intro h; cases h
      · intro h; omega
    · simp only [h2, if_false]
      by_cases h3 : extractPosition n < 1 ∨ extractPosition n > getRoomsCountForFloor (extractFloor n)
      · simp only [h3, if_true]
        constructor
        · intro h; cases h
        · intro h; omega
      · simp only [h3, if_false, true_iff]
        omega

theorem valid_decomp {n : Nat} (h : isValidRoomNumber n = true) :
    n = createRoomNumber (extractFloor n) (extractPosition n) := by
  unfold createRoomNumber extractFloor extractPosition
  omega

theorem getRoomsCountForFloor_le_ten (f : Nat) : getRoomsCountForFloor f ≤ 10 := by
  unfold getRoomsCountForFloor HOTEL_CONFIG.TOTAL_FLOORS HOTEL_CONFIG.TOP_FLOOR
    HOTEL_CONFIG.TOP_FLOOR_ROOMS HOTEL_CONFIG.STANDARD_ROOMS_PER_FLOOR
  split
  · omega
  · split <;> omega

theorem extractFloor_createRoomNumber {f p : Nat} (hp : p < 100) :
    extractFloor (createRoomNumber f p) = f := by
  unfold extractFloor createRoomNumber
  omega

theorem extractPosition_createRoomNumber {f p : Nat} (hp : p < 100) :
    extractPosition (createRoomNumber f p) = p := by
  unfold extractPosition createRoomNumber
  omega

/-! ### Characterisations of the three searches -/

theorem sortByPosition_length (l : List Nat) : (sortByPosition l).length = l.length :=
  (sortByPosition_perm l).length_eq

theorem sortRoomNumbers_length (l : List Nat) : (sortRoomNumbers l).length = l.length :=
  (sortRoomNumbers_perm l).length_eq

theorem findBestContiguousBlock_def {R : List Nat} {k : Nat} (h : ¬ R.length < k) :
    findBestContiguousBlock R k =
      (((windowsOf (sortByPosition R) k).filter isContiguousB).foldl stepBest (none, none)).1 := by
  unfold findBestContiguousBlock
  rw [if_neg h]

theorem findBestSameFloorBlock_none_of_short {R : List Nat} {k : Nat} (h : R.length < k) :
    findBestSameFloorBlock R k = none := by
  unfold findBestSameFloorBlock
  rw [if_pos h]

theorem findBestSameFloorBlock_of_contiguous {R : List Nat} {k : Nat} {c : List Nat}
    (h : ¬ R.length < k) (hc : findBestContiguousBlock R k = some c) :
    findBestSameFloorBlock R k = some c := by
  unfold findBestSameFloorBlock
  rw [if_neg h, hc]

theorem findBestSameFloorBlock_of_fallback {R : List Nat} {k : Nat}
    (h : ¬ R.length < k) (hc : findBestContiguousBlock R k = none) :
    findBestSameFloorBlock R k =
      ((windowsOf (sortByPosition R) k).foldl stepBest (none, none)).1 := by
  unfold findBestSameFloorBlock
  rw [if_neg h, hc]

theorem findBestCrossFloorAllocation_def {rooms : List Nat} {k : Nat}
    (h : ¬ rooms.length < k) :
    findBestCrossFloorAllocation rooms k =
      ((generateCombinations (sortRoomNumbers rooms) k).foldl stepBest (none, none)).1 := by
  unfold findBestCrossFloorAllocation
  rw [if_neg h]

theorem foldl_stepBest_some_mem {cands : List (List Nat)} {b : List Nat}
    (h : (cands.foldl stepBest (none, none)).1 = some b) : b ∈ cands := by
  obtain ⟨_, _, _, hprov, _, _⟩ := foldl_stepBest_spec cands (none, none) rfl
  rcases hprov with heq | ⟨b2, hb2, hb2eq⟩
  · rw [heq] at h; cases h
  · rw [h] at hb2eq
    obtain rfl : b2 = b := by injection hb2eq with heq; exact heq.symm
    exact hb2

theorem foldl_stepBest_some_of_finite {cands : List (List Nat)} {c : List Nat} {m : Nat}
    (hc : c ∈ cands) (hm : calculateGroupSpan c = some m) :
    ∃ b, (cands.foldl stepBest (none, none)).1 = some b := by
  obtain ⟨hcons, _, hmin, _, _, _⟩ := foldl_stepBest_spec cands (none, none) rfl
  have hle := hmin c hc
  rw [hm] at hle
  cases hb : (cands.foldl stepBest (none, none)).1 with
  | none =>
    rw [hb] at hcons
    simp only [spanOf] at hcons
    rw [hcons] at hle
    simp [spanLeB] at hle
  | some b => exact ⟨b, rfl⟩

theorem foldl_stepBest_span {cands : List (List Nat)} {b : List Nat}
    (h : (cands.foldl stepBest (none, none)).1 = some b) :
    (cands.foldl stepBest (none, none)).2 = calculateGroupSpan b := by
  obtain ⟨hcons, _, _, _, _, _⟩ := foldl_stepBest_spec cands (none, none) rfl
  rw [hcons, h]
  rfl

theorem foldl_stepBest_min {cands : List (List Nat)} {b : List Nat}
    (h : (cands.foldl stepBest (none, none)).1 = some b) :
    ∀ c ∈ cands, spanLeB (calculateGroupSpan b) (calculateGroupSpan c) = true := by
  obtain ⟨_, _, hmin, _, _, _⟩ := foldl_stepBest_spec cands (none, none) rfl
  intro c hc
  rw [← foldl_stepBest_span h]
  exact hmin c hc

theorem foldl_stepBest_tie {cands : List (List Nat)} {b : List Nat}
    (h : (cands.foldl stepBest (none, none)).1 = some b)
    (hfin : calculateGroupSpan b ≠ none) :
    ∀ c ∈ cands, calculateGroupSpan c = calculateGroupSpan b → b.headD 0 ≤ c.headD 0 := by
  obtain ⟨_, _, _, _, _, htie⟩ := foldl_stepBest_spec cands (none, none) rfl
  intro c hc hspan
  obtain ⟨b2, hb2, hb2le⟩ := htie c hc (by rw [hspan, foldl_stepBest_span h])
    (by rw [foldl_stepBest_span h]; exact hfin)
  rw [h] at hb2
  obtain rfl : b2 = b := by injection hb2 with heq; exact heq.symm
  exact hb2le

theorem findBestSameFloorBlock_shape {R : List Nat} {k : Nat} {b : List Nat}
    (h : findBestSameFloorBlock R k = some b) :
    b.Sublist (sortByPosition R) ∧ b.length = k := by
  by_cases hshort : R.length < k
  · rw [findBestSameFloorBlock_none_of_short hshort] at h; cases h
  · have hk : k ≤ (sortByPosition R).length := by rw [sortByPosition_length]; omega
    cases hcont : findBestContiguousBlock R k with
    | some c =>
      rw [findBestSameFloorBlock_of_contiguous hshort hcont] at h
      obtain rfl : c = b := by injection h
      have hmem := foldl_stepBest_some_mem
        ((findBestContiguousBlock_def hshort).symm.trans hcont)
      have hmemw := List.mem_of_mem_filter hmem
      exact ⟨sublist_of_mem_windowsOf hmemw, length_of_mem_windowsOf hk hmemw⟩
    | none =>
      rw [findBestSameFloorBlock_of_fallback hshort hcont] at h
      have hmem := foldl_stepBest_some_mem h
      exact ⟨sublist_of_mem_windowsOf hmem, length_of_mem_windowsOf hk hmem⟩

theorem findBestSameFloorBlock_isSome_of_valid {R : List Nat} {k : Nat}
    (hlen : k ≤ R.length) (hv : ∀ x ∈ R, isValidRoomNumber x = true) :
    ∃ b, findBestSameFloorBlock R k = some b := by
  have hshort : ¬ R.length < k := by omega
  cases hcont : findBestContiguousBlock R k with
  | some c => exact ⟨c, findBestSameFloorBlock_of_contiguous hshort hcont⟩
  | none =>
    rw [findBestSameFloorBlock_of_fallback hshort hcont]
    have hw : (sortByPosition R).take k ∈ windowsOf (sortByPosition R) k := take_mem_windowsOf
    have hvw : ∀ x ∈ (sortByPosition R).take k, isValidRoomNumber x = true := fun x hx =>
      hv x ((sortByPosition_perm R).mem_iff.mp (((sortByPosition R).take_sublist k).mem hx))
    obtain ⟨m, hm⟩ := calculateGroupSpan_isSome_of_valid hvw
    exact foldl_stepBest_some_of_finite hw hm

theorem findBestCrossFloorAllocation_shape {rooms : List Nat} {k : Nat} {b : List Nat}
    (h : findBestCrossFloorAllocation rooms k = some b) :
    b.Sublist (sortRoomNumbers rooms) ∧ b.length = k := by
  by_cases hshort : rooms.length < k
  · unfold findBestCrossFloorAllocation at h
    rw [if_pos hshort] at h
    cases h
  · rw [findBestCrossFloorAllocation_def hshort] at h
    exact (mem_generateCombinations _ _ _).mp (foldl_stepBest_some_mem h)

theorem findBestCrossFloorAllocation_isSome_of_valid {rooms : List Nat} {k : Nat}
    (hlen : k ≤ rooms.length) (hv : ∀ x ∈ rooms, isValidRoomNumber x = true) :
    ∃ b, findBestCrossFloorAllocation rooms k = some b := by
  have hshort : ¬ rooms.length < k := by omega
  rw [findBestCrossFloorAllocation_def hshort]
  have hk : ((sortRoomNumbers rooms).take k).length = k := by
    rw [List.length_take, sortRoomNumbers_length]
    omega
  have hcmem : (sortRoomNumbers rooms).take k ∈
      generateCombinations (sortRoomNumbers rooms) k :=
    (mem_generateCombinations _ _ _).mpr ⟨(sortRoomNumbers rooms).take_sublist k, hk⟩
  have hvw : ∀ x ∈ (sortRoomNumbers rooms).take k, isValidRoomNumber x = true := fun x hx =>
    hv x ((sortRoomNumbers_perm rooms).mem_iff.mp (((sortRoomNumbers rooms).take_sublist k).mem hx))
  obtain ⟨m, hm⟩ := calculateGroupSpan_isSome_of_valid hvw
  exact foldl_stepBest_some_of_finite hcmem hm

theorem findBestCrossFloorAllocation_min {rooms : List Nat} {k : Nat} {b : List Nat}
    (h : findBestCrossFloorAllocation rooms k = some b) :
    ∀ c, c.Sublist (sortRoomNumbers rooms) → c.length = k →
      spanLeB (calculateGroupSpan b) (calculateGroupSpan c) = true := by
  intro c hcs hcl
  by_cases hshort : rooms.length < k
  · unfold findBestCrossFloorAllocation at h
    rw [if_pos hshort] at h
    cases h
  · rw [findBestCrossFloorAllocation_def hshort] at h
    exact foldl_stepBest_min h c ((mem_generateCombinations _ _ _).mpr ⟨hcs, hcl⟩)

theorem findBestCrossFloorAllocation_tie {rooms : List Nat} {k : Nat} {b : List Nat}
    (h : findBestCrossFloorAllocation rooms k = some b)
    (hfin : calculateGroupSpan b ≠ none) :
    ∀ c, c.Sublist (sortRoomNumbers rooms) → c.length = k →
      calculateGroupSpan c = calculateGroupSpan b → b.headD 0 ≤ c.headD 0 := by
  intro c hcs hcl hspan
  by_cases hshort : rooms.length < k
  · unfold findBestCrossFloorAllocation at h
    rw [if_pos hshort] at h
    cases h
  · rw [findBestCrossFloorAllocation_def hshort] at h
    exact foldl_stepBest_tie h hfin c ((mem_generateCombinations _ _ _).mpr ⟨hcs, hcl⟩) hspan

/-! ### The single-floor loop -/

/-- What a floor contributes to the single-floor loop: its best same-floor
block, provided it has at least `k` available rooms. -/
def floorOffer (rooms : List Nat) (k f : Nat) : Option (List Nat) :=
  if k ≤ (floorRoomsOf rooms f).length then findBestSameFloorBlock (floorRoomsOf rooms f) k
  else none

theorem floorStep_eq (rooms : List Nat) (k : Nat) (acc : SingleFloorBest) (f : Nat) :
    floorStep rooms k acc f =
      match floorOffer rooms k f with
      | some a =>
        if spanLtB (calculateGroupSpan a) acc.tt ∨
            (calculateGroupSpan a = acc.tt ∧ f < acc.floor) then
          ⟨some a, calculateGroupSpan a, f⟩
        else acc
      | none => acc := by
  unfold floorStep floorOffer
  by_cases hg : k ≤ (floorRoomsOf rooms f).length
  · rw [if_pos hg, if_pos hg]
  · rw [if_neg hg, if_neg hg]

/-- The span recorded by the single-floor loop state. -/
def spanOfS (acc : SingleFloorBest) : Option Nat := spanOf acc.alloc

/-- Full characterisation of the single-floor loop of allocateRooms:
consistency, monotonicity, minimality over every floor's offer, provenance of
the winner (which floor produced it), and the lower-floor tiebreak. -/
theorem foldl_floorStep_spec (rooms : List Nat) (k : Nat) (floors : List Nat) :
    ∀ acc : SingleFloorBest, acc.tt = spanOf acc.alloc →
      ((floors.foldl (floorStep rooms k) acc).tt =
          spanOf (floors.foldl (floorStep rooms k) acc).alloc)
      ∧ spanLeB (floors.foldl (floorStep rooms k) acc).tt acc.tt = true
      ∧ (∀ f ∈ floors, ∀ a, floorOffer rooms k f = some a →
          spanLeB (floors.foldl (floorStep rooms k) acc).tt (calculateGroupSpan a) = true)
      ∧ (floors.foldl (floorStep rooms k) acc = acc ∨
          ∃ f ∈ floors, ∃ a, floorOffer rooms k f = some a ∧
            (floors.foldl (floorStep rooms k) acc).alloc = some a ∧
            (floors.foldl (floorStep rooms k) acc).floor = f)
      ∧ ((floors.foldl (floorStep rooms k) acc).tt = acc.tt →
          (floors.foldl (floorStep rooms k) acc).floor ≤ acc.floor)
      ∧ (∀ f ∈ floors, ∀ a, floorOffer rooms k f = some a →
          (floors.foldl (floorStep rooms k) acc).tt = calculateGroupSpan a →
          (floors.foldl (floorStep rooms k) acc).floor ≤ f) := by
  induction floors with
  | nil =>
    intro acc hcons
    refine ⟨hcons, spanLeB_refl _, ?_, Or.inl rfl, fun _ => Nat.le_refl _, ?_⟩
    · intro f hf; cases hf
    · intro f hf; cases hf
  | cons f0 t ih =>
    intro acc hcons
    rw [List.foldl_cons, floorStep_eq]
    cases hoffer : floorOffer rooms k f0 with
    | none =>
      simp only
      obtain ⟨ihcons, ihle, ihmin, ihprov, ihimp, ihtie⟩ := ih acc hcons
      refine ⟨ihcons, ihle, ?_, ?_, ihimp, ?_⟩
      · intro f hf a ha
        rcases List.mem_cons.mp hf with rfl | hf
        · rw [hoffer] at ha; cases ha
        · exact ihmin f hf a ha
      · rcases ihprov with heq | ⟨f, hf, a, ha, halloc, hfloor⟩
        · exact Or.inl heq
        · exact Or.inr ⟨f, List.mem_cons_of_mem f0 hf, a, ha, halloc, hfloor⟩
      · intro f hf a ha htt
        rcases List.mem_cons.mp hf with rfl | hf
        · rw [hoffer] at ha; cases ha
        · exact ihtie f hf a ha htt
    | some a0 =>
      simp only
      by_cases hupd : spanLtB (calculateGroupSpan a0) acc.tt = true ∨
          (calculateGroupSpan a0 = acc.tt ∧ f0 < acc.floor)
      · rw [if_pos hupd]
        obtain ⟨ihcons, ihle, ihmin, ihprov, ihimp, ihtie⟩ :=
          ih ⟨some a0, calculateGroupSpan a0, f0⟩ rfl
        refine ⟨ihcons, ?_, ?_, ?_, ?_, ?_⟩
        · rcases hupd with hlt | ⟨heq, _⟩
          · exact spanLeB_trans ihle (spanLeB_of_spanLtB hlt)
          · rw [← heq]; exact ihle
        · intro f hf a ha
          rcases List.mem_cons.mp hf with rfl | hf
          · rw [hoffer] at ha
            obtain rfl : a0 = a := by injection ha
            exact ihle
          · exact ihmin f hf a ha
        · rcases ihprov with heq | ⟨f, hf, a, ha, halloc, hfloor⟩
          · exact Or.inr ⟨f0, List.mem_cons_self f0 t, a0, hoffer, by rw [heq], by rw [heq]⟩
          · exact Or.inr ⟨f, List.mem_cons_of_mem f0 hf, a, ha, halloc, hfloor⟩
        · intro htt
          rcases hupd with hlt | ⟨heq, hflt⟩
          · exfalso
            have h1 : spanLeB (t.foldl (floorStep rooms k) ⟨some a0, calculateGroupSpan a0, f0⟩).tt
                (calculateGroupSpan a0) = true := ihle
            rw [htt] at h1
            exact (spanLtB_iff_not_spanLeB.mp hlt) h1
          · have h2 := ihimp (by rw [htt, heq])
            exact Nat.le_trans h2 (Nat.le_of_lt hflt)
        · intro f hf a ha htt
          rcases List.mem_cons.mp hf with rfl | hf
          · rw [hoffer] at ha
            obtain rfl : a0 = a := by injection ha
            exact ihimp htt
          · exact ihtie f hf a ha htt
      · rw [if_neg hupd]
        push_neg at hupd
        obtain ⟨hnotlt, hnottie⟩ := hupd
        have hge : spanLeB acc.tt (calculateGroupSpan a0) = true :=
          not_spanLtB_iff.mp (by simpa using hnotlt)
        obtain ⟨ihcons, ihle, ihmin, ihprov, ihimp, ihtie⟩ := ih acc hcons
        refine ⟨ihcons, ihle, ?_, ?_, ihimp, ?_⟩
        · intro f hf a ha
          rcases List.mem_cons.mp hf with rfl | hf
          · rw [hoffer] at ha
            obtain rfl : a0 = a := by injection ha
            exact spanLeB_trans ihle hge
          · exact ihmin f hf a ha
        · rcases ihprov with heq | ⟨f, hf, a, ha, halloc, hfloor⟩
          · exact Or.inl heq
          · exact Or.inr ⟨f, List.mem_cons_of_mem f0 hf, a, ha, halloc, hfloor⟩
        · intro f hf a ha htt
          rcases List.mem_cons.mp hf with rfl | hf
          · rw [hoffer] at ha
            obtain rfl : a0 = a := by injection ha
            have heq2 : acc.tt = calculateGroupSpan a0 := by
              refine spanLeB_antisymm hge ?_
              rw [← htt]
              exact ihle
            have hfle : acc.floor ≤ f := hnottie heq2.symm
            exact Nat.le_trans (ihimp (by rw [htt, heq2])) hfle
          · exact ihtie f hf a ha htt

/-! ### Unfolding allocateRooms -/

theorem validateBookingRequest_natCast {n : Nat} {ids : List Nat}
    (h1 : 1 ≤ n) (h5 : n ≤ 5) (hlen : n ≤ ids.length) :
    validateBookingRequest (n : Rat) ids = ⟨true, none⟩ := by
  unfold validateBookingRequest HOTEL_CONFIG.MIN_ROOMS_PER_BOOKING
    HOTEL_CONFIG.MAX_ROOMS_PER_BOOKING
  have hden : ((n : Rat)).den = 1 := Rat.den_natCast n
  have hmin : ¬ ((n : Rat) < ((1 : Nat) : Rat)) := by
    rw [Nat.cast_lt]
    omega
  have hmax : ¬ ((n : Rat) > ((5 : Nat) : Rat)) := by
    rw [gt_iff_lt, Nat.cast_lt]
    omega
  have hav : ¬ ((ids.length : Rat) < (n : Rat)) := by
    rw [Nat.cast_lt]
    omega
  rw [if_neg (by simp [hden]), if_neg (by push_cast at hmin ⊢; exact hmin),
    if_neg (by push_cast at hmax ⊢; exact hmax), if_neg (by push_cast at hav ⊢; exact hav)]

theorem allocateRooms_natCast {n : Nat} {ids : List Nat}
    (h1 : 1 ≤ n) (h5 : n ≤ 5) (hlen : n ≤ ids.length) :
    allocateRooms (n : Rat) ids = allocateCore n ids := by
  unfold allocateRooms
  rw [validateBookingRequest_natCast h1 h5 hlen]
  have hnum : ((n : Rat)).num.toNat = n := by
    rw [Rat.num_natCast]
    exact Int.toNat_natCast n
  simp only [Bool.not_true, Bool.false_eq_true, if_false, hnum]

/-- The final best of the single-floor loop of allocateCore. -/
def singleFloorBestOf (k : Nat) (rooms : List Nat) : SingleFloorBest :=
  (List.range' 1 HOTEL_CONFIG.TOTAL_FLOORS).foldl (floorStep rooms k) ⟨none, none, 0⟩

theorem allocateCore_single {k : Nat} {rooms b : List Nat}
    (h : (singleFloorBestOf k rooms).alloc = some b) :
    allocateCore k rooms =
      ⟨true, sortRoomNumbers b, (singleFloorBestOf k rooms).tt, none⟩ := by
  unfold allocateCore
  rw [show (List.range' 1 HOTEL_CONFIG.TOTAL_FLOORS).foldl (floorStep rooms k) ⟨none, none, 0⟩ =
    singleFloorBestOf k rooms from rfl]
  simp only [h]

theorem allocateCore_cross {k : Nat} {rooms c : List Nat}
    (h : (singleFloorBestOf k rooms).alloc = none)
    (hc : findBestCrossFloorAllocation rooms k = some c) :
    allocateCore k rooms =
      ⟨true, sortRoomNumbers c, calculateGroupSpan c, none⟩ := by
  unfold allocateCore
  rw [show (List.range' 1 HOTEL_CONFIG.TOTAL_FLOORS).foldl (floorStep rooms k) ⟨none, none, 0⟩ =
    singleFloorBestOf k rooms from rfl]
  simp only [h, hc]

theorem allocateCore_fail {k : Nat} {rooms : List Nat}
    (h : (singleFloorBestOf k rooms).alloc = none)
    (hc : findBestCrossFloorAllocation rooms k = none) :
    allocateCore k rooms = ⟨false, [], some 0, some "Unable to allocate rooms"⟩ := by
  unfold allocateCore
  rw [show (List.range' 1 HOTEL_CONFIG.TOTAL_FLOORS).foldl (floorStep rooms k) ⟨none, none, 0⟩ =
    singleFloorBestOf k rooms from rfl]
  simp only [h, hc]


/-! ### Small helper lemmas for the claims -/

theorem headD_eq_of_min {l : List Nat} (hs : List.Sorted (· ≤ ·) l) (hne : l ≠ [])
    {mn : Nat} (hmem : mn ∈ l) (hmin : ∀ x ∈ l, mn ≤ x) : l.headD 0 = mn :=
  Nat.le_antisymm (headD_le_of_sorted hs mn hmem) (hmin _ (headD_mem hne))

theorem getLastD_eq_of_max {l : List Nat} (hs : List.Sorted (· ≤ ·) l) (hne : l ≠ [])
    {mx : Nat} (hmem : mx ∈ l) (hmax : ∀ x ∈ l, x ≤ mx) : l.getLastD 0 = mx :=
  Nat.le_antisymm (hmax _ (getLastD_mem hne)) (le_getLastD_of_sorted hs mx hmem)

theorem stepBest_fixed_none {c : List Nat} (h : calculateGroupSpan c = none) :
    stepBest (none, none) c = (none, none) := by
  rw [stepBest_eq, h]
  rw [if_neg (by rw [spanLtB_none_left]; simp), if_neg ?_]
  intro hcon
  exact absurd hcon.2 (by simp [headLtB])

theorem foldl_fixed {α β : Type} (f : β → α → β) (init : β) (l : List α)
    (h : ∀ x ∈ l, f init x = init) : l.foldl f init = init := by
  induction l with
  | nil => rfl
  | cons x t ih =>
    rw [List.foldl_cons, h x (List.mem_cons_self x t)]
    exact ih (fun y hy => h y (List.mem_cons_of_mem x hy))

theorem floorStep_fixed {rooms : List Nat} {k f : Nat}
    (h : ∀ a, floorOffer rooms k f = some a → calculateGroupSpan a = none) :
    floorStep rooms k ⟨none, none, 0⟩ f = ⟨none, none, 0⟩ := by
  rw [floorStep_eq]
  cases hoffer : floorOffer rooms k f with
  | none => rfl
  | some a =>
    simp only
    rw [if_neg]
    rw [h a hoffer]
    simp [spanLtB_none_left]

/-! ### Claim theorems -/

/-- Claim C10: inputs passing the four validation checks can still fail: with
requestedCount 2 and availableIds [9998, 9999] every size-2 candidate has
infinite span (both ids are invalid), no candidate is selected, and the final
fallback branch returns success:false with message 'Unable to allocate rooms'
and empty allocatedRooms. -/
theorem allocateRooms_unable_fallback :
    (validateBookingRequest 2 [9998, 9999]).isValid = true
    ∧ allocateRooms 2 [9998, 9999] =
        ⟨false, [], some 0, some "Unable to allocate rooms"⟩
    ∧ calculateGroupSpan [9998, 9999] = none :=
  ⟨by decide, by decide, by decide⟩

/-- Claim C5: allocateRooms checks the four validation conditions in order
(integer, minimum 1, maximum 5, availability) and the first failing check
determines the outcome, returning success:false, empty allocatedRooms,
travelTime 0, and the message naming the violated bound. -/
theorem allocateRooms_validation_order (q : Rat) (ids : List Nat) :
    (¬ q.den = 1 →
      allocateRooms q ids =
        ⟨false, [], some 0, some "Number of rooms must be an integer"⟩)
    ∧ (q.den = 1 → q < 1 →
      allocateRooms q ids =
        ⟨false, [], some 0, some "Minimum 1 room(s) required per booking"⟩)
    ∧ (q.den = 1 → ¬ q < 1 → q > 5 →
      allocateRooms q ids =
        ⟨false, [], some 0, some "Maximum 5 rooms allowed per booking"⟩)
    ∧ (q.den = 1 → ¬ q < 1 → ¬ q > 5 → (ids.length : Rat) < q →
      allocateRooms q ids = ⟨false, [], some 0,
        some ("Not enough rooms available. Requested: " ++ toString q.num
          ++ ", Available: " ++ toString ids.length)⟩) := by
  have hmin : (HOTEL_CONFIG.MIN_ROOMS_PER_BOOKING : Rat) = 1 := by
    unfold HOTEL_CONFIG.MIN_ROOMS_PER_BOOKING
    norm_num
  have hmax : (HOTEL_CONFIG.MAX_ROOMS_PER_BOOKING : Rat) = 5 := by
    unfold HOTEL_CONFIG.MAX_ROOMS_PER_BOOKING
    norm_num
  have hwrap : ∀ msg : String, validateBookingRequest q ids = ⟨false, some msg⟩ →
      allocateRooms q ids = ⟨false, [], some 0, some msg⟩ := by
    intro msg h
    unfold allocateRooms
    rw [h]
    rfl
  refine ⟨?_, ?_, ?_, ?_⟩
  · intro h
    refine hwrap _ ?_
    unfold validateBookingRequest
    rw [if_pos (by simp [h])]
  · intro hden h
    refine hwrap _ ?_
    unfold validateBookingRequest
    rw [if_neg (by simp [hden]), if_pos (by rw [hmin]; exact h)]
  · intro hden h1 h5
    refine hwrap _ ?_
    unfold validateBookingRequest
    rw [if_neg (by simp [hden]), if_neg (by rw [hmin]; exact h1),
      if_pos (by rw [hmax]; exact h5)]
  · intro hden h1 h5 hav
    refine hwrap _ ?_
    unfold validateBookingRequest
    rw [if_neg (by simp [hden]), if_neg (by rw [hmin]; exact h1),
      if_neg (by rw [hmax]; exact h5), if_pos hav]

/-- Claim C5 witness: allocateRooms(0, []) fails with the minimum-count
message (not the availability message), and a non-integer request fails with
the integer message. -/
theorem allocateRooms_validation_order_witness :
    allocateRooms 0 [] =
      ⟨false, [], some 0, some "Minimum 1 room(s) required per booking"⟩
    ∧ allocateRooms (Rat.mk' 5 2) [101, 102] =
      ⟨false, [], some 0, some "Number of rooms must be an integer"⟩ :=
  ⟨(allocateRooms_validation_order 0 []).2.1 (by decide) (by decide),
    (allocateRooms_validation_order (Rat.mk' 5 2) [101, 102]).1 (by decide)⟩

/-- Claim C8: calculateTravelTime fails with a message naming the offending
identifier when either id is invalid, returns the all-zero valid result for
equal valid ids, and otherwise returns verticalMinutes = 2·|Δfloor|,
horizontalMinutes = 1·|Δposition| and their sum as totalMinutes. -/
theorem calculateTravelTime_cases (idA idB : Nat) :
    (isValidRoomNumber idA = false →
      calculateTravelTime idA idB =
        ⟨0, 0, 0, false, some ("Invalid room number: " ++ toString idA)⟩)
    ∧ (isValidRoomNumber idA = true → isValidRoomNumber idB = false →
      calculateTravelTime idA idB =
        ⟨0, 0, 0, false, some ("Invalid room number: " ++ toString idB)⟩)
    ∧ (isValidRoomNumber idA = true → isValidRoomNumber idB = true → idA = idB →
      calculateTravelTime idA idB = ⟨0, 0, 0, true, none⟩)
    ∧ (isValidRoomNumber idA = true → isValidRoomNumber idB = true → idA ≠ idB →
      calculateTravelTime idA idB =
        ⟨2 * (max (extractFloor idA) (extractFloor idB) -
            min (extractFloor idA) (extractFloor idB)) +
          1 * (max (extractPosition idA) (extractPosition idB) -
            min (extractPosition idA) (extractPosition idB)),
          2 * (max (extractFloor idA) (extractFloor idB) -
            min (extractFloor idA) (extractFloor idB)),
          1 * (max (extractPosition idA) (extractPosition idB) -
            min (extractPosition idA) (extractPosition idB)), true, none⟩) := by
  refine ⟨?_, ?_, ?_, ?_⟩
  · intro h
    unfold calculateTravelTime
    rw [if_pos (by simp [h])]
  · intro hA h
    unfold calculateTravelTime
    rw [if_neg (by simp [hA]), if_pos (by simp [h])]
  · intro hA hB heq
    unfold calculateTravelTime
    rw [if_neg (by simp [hA]), if_neg (by simp [hB]), if_pos heq]
  · intro hA hB hne
    rw [calculateTravelTime_of_valid hA hB, if_neg hne]
    unfold calculateVerticalTime calculateHorizontalTime TRAVEL_TIME.VERTICAL_PER_FLOOR
      TRAVEL_TIME.HORIZONTAL_PER_ROOM
    have hv : (max (extractFloor idA) (extractFloor idB) -
        min (extractFloor idA) (extractFloor idB)) * 2 =
        2 * (max (extractFloor idA) (extractFloor idB) -
          min (extractFloor idA) (extractFloor idB)) := Nat.mul_comm _ 2
    have hh : (max (extractPosition idA) (extractPosition idB) -
        min (extractPosition idA) (extractPosition idB)) * 1 =
        1 * (max (extractPosition idA) (extractPosition idB) -
          min (extractPosition idA) (extractPosition idB)) := Nat.mul_comm _ 1
    rw [hv, hh]

/-- Claim C8 witness: an invalid first id is reported, and 101 → 1007 breaks
down into 18 vertical plus 6 horizontal minutes. -/
theorem calculateTravelTime_cases_witness :
    calculateTravelTime 9999 101 =
      ⟨0, 0, 0, false, some ("Invalid room number: " ++ toString 9999)⟩
    ∧ calculateTravelTime 101 1007 =
      ⟨2 * (max (extractFloor 101) (extractFloor 1007) -
          min (extractFloor 101) (extractFloor 1007)) +
        1 * (max (extractPosition 101) (extractPosition 1007) -
          min (extractPosition 101) (extractPosition 1007)),
        2 * (max (extractFloor 101) (extractFloor 1007) -
          min (extractFloor 101) (extractFloor 1007)),
        1 * (max (extractPosition 101) (extractPosition 1007) -
          min (extractPosition 101) (extractPosition 1007)), true, none⟩ :=
  ⟨(calculateTravelTime_cases 9999 101).1 (by decide),
    (calculateTravelTime_cases 101 1007).2.2.2 (by decide) (by decide) (by decide)⟩

/-- Claim C6: calculateGroupSpan returns 0 for lists of at most one element,
the infinite sentinel (`none`) when some element of a larger list is invalid,
and otherwise the travel time between the minimum and maximum identifier; in
particular groupSpan([101, 1008]) is the infinite sentinel. -/
theorem calculateGroupSpan_cases (ids : List Nat) (mn mx : Nat) :
    (ids.length ≤ 1 → calculateGroupSpan ids = some 0)
    ∧ (2 ≤ ids.length → (∃ r ∈ ids, isValidRoomNumber r = false) →
        calculateGroupSpan ids = none)
    ∧ (2 ≤ ids.length → (∀ r ∈ ids, isValidRoomNumber r = true) →
        mn ∈ ids → (∀ x ∈ ids, mn ≤ x) → mx ∈ ids → (∀ x ∈ ids, x ≤ mx) →
        calculateGroupSpan ids = some ((calculateTravelTime mn mx).totalMinutes))
    ∧ calculateGroupSpan [101, 1008] = none := by
  refine ⟨calculateGroupSpan_small, calculateGroupSpan_invalid, ?_, by decide⟩
  intro hlen hv hmn hmnle hmx hmxle
  rw [calculateGroupSpan_big_valid hlen hv]
  have hne : List.insertionSort (· ≤ ·) ids ≠ [] := by
    intro hcon
    have := (numericSort_perm ids).length_eq
    rw [hcon] at this
    simp at this
    omega
  have hhead : (List.insertionSort (· ≤ ·) ids).headD 0 = mn :=
    headD_eq_of_min (numericSort_sorted ids) hne ((numericSort_perm ids).mem_iff.mpr hmn)
      (fun x hx => hmnle x ((numericSort_perm ids).mem_iff.mp hx))
  have hlast : (List.insertionSort (· ≤ ·) ids).getLastD 0 = mx :=
    getLastD_eq_of_max (numericSort_sorted ids) hne ((numericSort_perm ids).mem_iff.mpr hmx)
      (fun x hx => hmxle x ((numericSort_perm ids).mem_iff.mp hx))
  rw [hhead, hlast]

/-- Claim C6 witness: groupSpan([101, 510, 1007]) is the travel time between
101 and 1007. -/
theorem calculateGroupSpan_cases_witness :
    calculateGroupSpan [101, 510, 1007] =
      some ((calculateTravelTime 101 1007).totalMinutes) :=
  (calculateGroupSpan_cases [101, 510, 1007] 101 1007).2.2.1 (by decide) (by decide)
    (by decide) (by decide) (by decide) (by decide)

/-- Claim C9: generateAllRoomNumbers is strictly ascending (floor-major,
position-minor coincides with numeric order), has exactly 97 elements, and
contains exactly the identifiers satisfying isValidRoomNumber, which in turn
holds exactly for integers ≥ 100 whose floor lies in [1, 10] and whose
position lies in [1, roomsOnFloor(floor)], with roomsOnFloor 7 on floor 10,
10 on floors 1-9, and 0 outside [1, 10]. -/
theorem generateAllRoomNumbers_spec :
    List.Sorted (· < ·) generateAllRoomNumbers
    ∧ generateAllRoomNumbers.length = 97
    ∧ (∀ n : Nat, n ∈ generateAllRoomNumbers ↔ isValidRoomNumber n = true)
    ∧ (∀ n : Nat, isValidRoomNumber n = true ↔
        (100 ≤ n ∧ 1 ≤ extractFloor n ∧ extractFloor n ≤ 10 ∧
          1 ≤ extractPosition n ∧ extractPosition n ≤ getRoomsCountForFloor (extractFloor n)))
    ∧ getRoomsCountForFloor 10 = 7
    ∧ (∀ f, 1 ≤ f → f ≤ 9 → getRoomsCountForFloor f = 10)
    ∧ (∀ f, f < 1 ∨ 10 < f → getRoomsCountForFloor f = 0) := by
  refine ⟨?_, by decide, ?_, fun n => isValidRoomNumber_iff, by decide, ?_, ?_⟩
  · show List.Pairwise (· < ·) generateAllRoomNumbers
    decide
  · intro n
    constructor
    · intro hn
      exact (by decide : ∀ m ∈ generateAllRoomNumbers, isValidRoomNumber m = true) n hn
    · intro hn
      obtain ⟨h100, hf1, hf10, hp1, hpc⟩ := isValidRoomNumber_iff.mp hn
      unfold generateAllRoomNumbers
      rw [List.mem_flatMap]
      refine ⟨extractFloor n, ?_, ?_⟩
      · rw [List.mem_range'_1]
        unfold HOTEL_CONFIG.TOTAL_FLOORS
        omega
      · rw [List.mem_map]
        refine ⟨extractPosition n, ?_, ?_⟩
        · rw [List.mem_range'_1]
          omega
        · have := valid_decomp hn
          unfold createRoomNumber at this
          omega
  · intro f h1 h9
    unfold getRoomsCountForFloor HOTEL_CONFIG.TOTAL_FLOORS HOTEL_CONFIG.TOP_FLOOR
      HOTEL_CONFIG.STANDARD_ROOMS_PER_FLOOR
    rw [if_neg (by omega), if_neg (by omega)]
  · intro f hout
    unfold getRoomsCountForFloor HOTEL_CONFIG.TOTAL_FLOORS
    rw [if_pos (by omega)]

theorem allocateRooms_eq_core_of_valid {q : Rat} {ids : List Nat}
    (hval : (validateBookingRequest q ids).isValid = true) :
    allocateRooms q ids = allocateCore q.num.toNat ids := by
  rcases hv : validateBookingRequest q ids with ⟨iv, err⟩
  rw [hv] at hval
  simp only at hval
  subst hval
  unfold allocateRooms
  rw [hv]
  rfl

theorem allocateRooms_of_invalid {q : Rat} {ids : List Nat}
    (hval : (validateBookingRequest q ids).isValid = false) :
    allocateRooms q ids = ⟨false, [], some 0, (validateBookingRequest q ids).error⟩ := by
  rcases hv : validateBookingRequest q ids with ⟨iv, err⟩
  rw [hv] at hval
  simp only at hval
  subst hval
  unfold allocateRooms
  rw [hv]
  rfl

theorem singleFloorBestOf_eq (k : Nat) (ids : List Nat) :
    (List.range' 1 HOTEL_CONFIG.TOTAL_FLOORS).foldl (floorStep ids k) ⟨none, none, 0⟩ =
      singleFloorBestOf k ids := rfl

theorem allocateCore_span (k : Nat) (ids : List Nat)
    (h : (allocateCore k ids).success = true) :
    (allocateCore k ids).travelTime =
      calculateGroupSpan (allocateCore k ids).allocatedRooms := by
  cases hb : (singleFloorBestOf k ids).alloc with
  | some b =>
    rw [allocateCore_single hb]
    obtain ⟨hcons, _, _, _, _, _⟩ :=
      foldl_floorStep_spec ids k (List.range' 1 HOTEL_CONFIG.TOTAL_FLOORS) ⟨none, none, 0⟩ rfl
    rw [singleFloorBestOf_eq] at hcons
    show (singleFloorBestOf k ids).tt = calculateGroupSpan (sortRoomNumbers b)
    rw [hcons, hb]
    show calculateGroupSpan b = calculateGroupSpan (sortRoomNumbers b)
    exact (calculateGroupSpan_perm (sortRoomNumbers_perm b)).symm
  | none =>
    cases hc : findBestCrossFloorAllocation ids k with
    | some c =>
      rw [allocateCore_cross hb hc]
      show calculateGroupSpan c = calculateGroupSpan (sortRoomNumbers c)
      exact (calculateGroupSpan_perm (sortRoomNumbers_perm c)).symm
    | none =>
      rw [allocateCore_fail hb hc] at h
      cases h

/-- Claim C7: whenever allocateRooms succeeds, the returned travelTime equals
calculateGroupSpan applied to the returned allocatedRooms. -/
theorem allocateRooms_span_consistency (q : Rat) (ids : List Nat)
    (h : (allocateRooms q ids).success = true) :
    (allocateRooms q ids).travelTime =
      calculateGroupSpan (allocateRooms q ids).allocatedRooms := by
  by_cases hval : (validateBookingRequest q ids).isValid = true
  · rw [allocateRooms_eq_core_of_valid hval] at h ⊢
    exact allocateCore_span _ _ h
  · rw [allocateRooms_of_invalid (by simpa using hval)] at h
    cases h

/-- Claim C7 witness: a successful allocation whose travelTime (13) matches
the group span of the returned rooms. -/
theorem allocateRooms_span_consistency_witness :
    (allocateRooms 2 [101, 510, 1007]).success = true
    ∧ (allocateRooms 2 [101, 510, 1007]).travelTime =
      calculateGroupSpan (allocateRooms 2 [101, 510, 1007]).allocatedRooms :=
  ⟨by decide, allocateRooms_span_consistency 2 [101, 510, 1007] (by decide)⟩

/-! ### Result integrity -/

theorem sorted_lt_of_sorted_le_nodup {l : List Nat}
    (hs : List.Sorted (· ≤ ·) l) (hnd : l.Nodup) : List.Sorted (· < ·) l :=
  (hs.and hnd).imp (fun h => Nat.lt_of_le_of_ne h.1 h.2)

theorem floorRoomsOf_subset {ids : List Nat} {f : Nat} :
    ∀ x ∈ floorRoomsOf ids f, x ∈ ids := fun x hx =>
  List.mem_of_mem_filter ((sortByPosition_perm _).mem_iff.mp hx)

theorem floorRoomsOf_nodup {ids : List Nat} {f : Nat} (h : ids.Nodup) :
    (floorRoomsOf ids f).Nodup :=
  ((sortByPosition_perm _).nodup_iff).mpr (h.filter _)

theorem floorRoomsOf_floor {ids : List Nat} {f : Nat} :
    ∀ x ∈ floorRoomsOf ids f, extractFloor x = f := by
  intro x hx
  have hx2 := (sortByPosition_perm _).mem_iff.mp hx
  have := List.of_mem_filter hx2
  exact of_decide_eq_true this

theorem singleFloorBestOf_some {k : Nat} {ids b : List Nat}
    (h : (singleFloorBestOf k ids).alloc = some b) :
    ∃ f, f ∈ List.range' 1 HOTEL_CONFIG.TOTAL_FLOORS ∧
      k ≤ (floorRoomsOf ids f).length ∧
      findBestSameFloorBlock (floorRoomsOf ids f) k = some b ∧
      (singleFloorBestOf k ids).floor = f := by
  obtain ⟨_, _, _, hprov, _, _⟩ :=
    foldl_floorStep_spec ids k (List.range' 1 HOTEL_CONFIG.TOTAL_FLOORS) ⟨none, none, 0⟩ rfl
  rw [singleFloorBestOf_eq] at hprov
  rcases hprov with heq | ⟨f, hf, a, ha, halloc, hfloor⟩
  · rw [heq] at h
    cases h
  · rw [halloc] at h
    obtain rfl : a = b := by injection h
    unfold floorOffer at ha
    by_cases hg : k ≤ (floorRoomsOf ids f).length
    · rw [if_pos hg] at ha
      exact ⟨f, hf, hg, ha, hfloor⟩
    · rw [if_neg hg] at ha
      cases ha

theorem allocateCore_integrity {k : Nat} {ids : List Nat}
    (hnd : ids.Nodup) (h : (allocateCore k ids).success = true) :
    (allocateCore k ids).allocatedRooms.length = k
    ∧ List.Sorted (· < ·) (allocateCore k ids).allocatedRooms
    ∧ (∀ r ∈ (allocateCore k ids).allocatedRooms, r ∈ ids) := by
  cases hb : (singleFloorBestOf k ids).alloc with
  | some b =>
    rw [allocateCore_single hb]
    obtain ⟨f, hf, hg, hfind, hfloor⟩ := singleFloorBestOf_some hb
    obtain ⟨hsub, hlen⟩ := findBestSameFloorBlock_shape hfind
    have hperm := sortByPosition_perm (floorRoomsOf ids f)
    have hbnd : b.Nodup := hsub.nodup (hperm.nodup_iff.mpr (floorRoomsOf_nodup hnd))
    have hmem : ∀ r ∈ b, r ∈ ids := fun r hr =>
      floorRoomsOf_subset r (hperm.mem_iff.mp (hsub.mem hr))
    refine ⟨?_, ?_, ?_⟩
    · show (sortRoomNumbers b).length = k
      rw [sortRoomNumbers_length, hlen]
    · exact sorted_lt_of_sorted_le_nodup (sortRoomNumbers_sorted b)
        ((sortRoomNumbers_perm b).nodup_iff.mpr hbnd)
    · intro r hr
      exact hmem r ((sortRoomNumbers_perm b).mem_iff.mp hr)
  | none =>
    cases hc : findBestCrossFloorAllocation ids k with
    | some c =>
      rw [allocateCore_cross hb hc]
      obtain ⟨hsub, hlen⟩ := findBestCrossFloorAllocation_shape hc
      have hcnd : c.Nodup := hsub.nodup ((sortRoomNumbers_perm ids).nodup_iff.mpr hnd)
      have hmem : ∀ r ∈ c, r ∈ ids := fun r hr =>
        (sortRoomNumbers_perm ids).mem_iff.mp (hsub.mem hr)
      refine ⟨?_, ?_, ?_⟩
      · show (sortRoomNumbers c).length = k
        rw [sortRoomNumbers_length, hlen]
      · exact sorted_lt_of_sorted_le_nodup (sortRoomNumbers_sorted c)
          ((sortRoomNumbers_perm c).nodup_iff.mpr hcnd)
      · intro r hr
        exact hmem r ((sortRoomNumbers_perm c).mem_iff.mp hr)
    | none =>
      rw [allocateCore_fail hb hc] at h
      cases h

/-- Claim C4 counterexample: the claim as stated fails on the code.
allocateRooms(1, [999]) succeeds and returns the invalid room 999 (its span is
computed as 0 before any validation happens for singleton selections), and
allocateRooms(2, [101, 101]) succeeds returning duplicated, non-strictly
ascending rooms. -/
theorem allocateRooms_result_integrity_cex :
    (allocateRooms 1 [999]).success = true
    ∧ (allocateRooms 1 [999]).allocatedRooms = [999]
    ∧ isValidRoomNumber 999 = false
    ∧ (allocateRooms 2 [101, 101]).success = true
    ∧ (allocateRooms 2 [101, 101]).allocatedRooms = [101, 101]
    ∧ ¬ List.Sorted (· < ·) (allocateRooms 2 [101, 101]).allocatedRooms := by
  refine ⟨by decide, by decide, by decide, by decide, by decide, ?_⟩
  intro hcon
  have : (allocateRooms 2 [101, 101]).allocatedRooms = [101, 101] := by decide
  rw [this] at hcon
  have := List.rel_of_sorted_cons hcon 101 (List.mem_cons_self 101 [])
  omega

/-- Claim C4 (amended): when the available identifiers are distinct and all
valid, a successful allocateRooms returns exactly requestedCount rooms (the
request is necessarily the integer q.num after validation), strictly ascending
with no duplicates, all drawn from availableIds and hence all valid. -/
theorem allocateRooms_result_integrity (q : Rat) (ids : List Nat)
    (hnd : ids.Nodup) (hv : ∀ r ∈ ids, isValidRoomNumber r = true)
    (h : (allocateRooms q ids).success = true) :
    (allocateRooms q ids).allocatedRooms.length = q.num.toNat
    ∧ List.Sorted (· < ·) (allocateRooms q ids).allocatedRooms
    ∧ (∀ r ∈ (allocateRooms q ids).allocatedRooms,
        r ∈ ids ∧ isValidRoomNumber r = true) := by
  by_cases hval : (validateBookingRequest q ids).isValid = true
  · rw [allocateRooms_eq_core_of_valid hval] at h ⊢
    obtain ⟨h1, h2, h3⟩ := allocateCore_integrity hnd h
    exact ⟨h1, h2, fun r hr => ⟨h3 r hr, hv r (h3 r hr)⟩⟩
  · rw [allocateRooms_of_invalid (by simpa using hval)] at h
    cases h

/-- Claim C4 witness: a concrete successful allocation with distinct valid
inputs, with the amended integrity conclusions instantiated. -/
theorem allocateRooms_result_integrity_witness :
    (allocateRooms 2 [101, 510, 1007]).allocatedRooms.length = (2 : Rat).num.toNat
    ∧ List.Sorted (· < ·) (allocateRooms 2 [101, 510, 1007]).allocatedRooms
    ∧ (∀ r ∈ (allocateRooms 2 [101, 510, 1007]).allocatedRooms,
        r ∈ [101, 510, 1007] ∧ isValidRoomNumber r = true) :=
  allocateRooms_result_integrity 2 [101, 510, 1007] (by decide) (by decide) (by decide)

/-! ### Single-floor priority -/

theorem spanLeB_some_right {x : Option Nat} {m : Nat} (h : spanLeB x (some m) = true) :
    ∃ m2, x = some m2 ∧ m2 ≤ m := by
  cases x with
  | none => simp [spanLeB] at h
  | some m2 => exact ⟨m2, rfl, by simpa [spanLeB] using h⟩

theorem floorRoomsOf_length (ids : List Nat) (f : Nat) :
    (floorRoomsOf ids f).length = (ids.filter (fun r => extractFloor r = f)).length :=
  sortByPosition_length _

theorem singleFloorBestOf_isSome {k : Nat} {ids : List Nat} {f : Nat}
    (hf : f ∈ List.range' 1 HOTEL_CONFIG.TOTAL_FLOORS)
    (hg : k ≤ (floorRoomsOf ids f).length)
    (hv : ∀ r ∈ ids, isValidRoomNumber r = true) :
    ∃ b, (singleFloorBestOf k ids).alloc = some b := by
  have hvf : ∀ x ∈ floorRoomsOf ids f, isValidRoomNumber x = true := fun x hx =>
    hv x (floorRoomsOf_subset x hx)
  obtain ⟨a, ha⟩ := findBestSameFloorBlock_isSome_of_valid hg hvf
  have hoffer : floorOffer ids k f = some a := by
    unfold floorOffer
    rw [if_pos hg, ha]
  have hva : ∀ x ∈ a, isValidRoomNumber x = true := fun x hx =>
    hvf x ((sortByPosition_perm _).mem_iff.mp ((findBestSameFloorBlock_shape ha).1.mem hx))
  obtain ⟨m, hm⟩ := calculateGroupSpan_isSome_of_valid hva
  obtain ⟨hcons, _, hminc, _, _, _⟩ :=
    foldl_floorStep_spec ids k (List.range' 1 HOTEL_CONFIG.TOTAL_FLOORS) ⟨none, none, 0⟩ rfl
  rw [singleFloorBestOf_eq] at hcons hminc
  have hle := hminc f hf a hoffer
  rw [hm] at hle
  obtain ⟨m2, hm2, _⟩ := spanLeB_some_right hle
  cases halloc : (singleFloorBestOf k ids).alloc with
  | none =>
    rw [halloc] at hcons
    simp only [spanOf] at hcons
    rw [hcons] at hm2
    cases hm2
  | some b => exact ⟨b, rfl⟩

theorem mem_floor_range_of_valid {ids : List Nat} {f : Nat}
    (hv : ∀ r ∈ ids, isValidRoomNumber r = true)
    (hne : 1 ≤ (ids.filter (fun r => extractFloor r = f)).length) :
    f ∈ List.range' 1 HOTEL_CONFIG.TOTAL_FLOORS := by
  have hpos : (ids.filter (fun r => extractFloor r = f)) ≠ [] := by
    intro hcon
    rw [hcon] at hne
    simp at hne
  obtain ⟨x, hx⟩ := List.exists_mem_of_ne_nil _ hpos
  have hxids := List.mem_of_mem_filter hx
  have hxf : extractFloor x = f := of_decide_eq_true (List.mem_filter.mp hx).2
  obtain ⟨_, h1, h10, _, _⟩ := isValidRoomNumber_iff.mp (hv x hxids)
  rw [List.mem_range'_1]
  unfold HOTEL_CONFIG.TOTAL_FLOORS
  omega

/-- Claim C1: with valid, distinct availableIds and a floor holding at least
requestedCount of them, allocateRooms succeeds and the allocation lies
entirely on one floor (the single-floor branch always wins when it exists). -/
theorem allocateRooms_single_floor_priority (n : Nat) (ids : List Nat)
    (h1 : 1 ≤ n) (h5 : n ≤ 5) (hnd : ids.Nodup)
    (hv : ∀ r ∈ ids, isValidRoomNumber r = true)
    (hlen : n ≤ ids.length)
    (hfl : ∃ f, n ≤ (ids.filter (fun r => extractFloor r = f)).length) :
    (allocateRooms (n : Rat) ids).success = true
    ∧ ∃ f, ∀ r ∈ (allocateRooms (n : Rat) ids).allocatedRooms, extractFloor r = f := by
  rw [allocateRooms_natCast h1 h5 hlen]
  obtain ⟨f, hf⟩ := hfl
  have hfr : f ∈ List.range' 1 HOTEL_CONFIG.TOTAL_FLOORS :=
    mem_floor_range_of_valid hv (by omega)
  have hg : n ≤ (floorRoomsOf ids f).length := by
    rw [floorRoomsOf_length]
    exact hf
  obtain ⟨b, hb⟩ := singleFloorBestOf_isSome hfr hg hv
  rw [allocateCore_single hb]
  refine ⟨rfl, ?_⟩
  obtain ⟨f2, _, _, hfind, _⟩ := singleFloorBestOf_some hb
  refine ⟨f2, ?_⟩
  intro r hr
  have hrb : r ∈ b := (sortRoomNumbers_perm b).mem_iff.mp hr
  exact floorRoomsOf_floor r
    ((sortByPosition_perm _).mem_iff.mp ((findBestSameFloorBlock_shape hfind).1.mem hrb))

/-- Claim C1 witness: rooms 110 and 201 are adjacent across floors (span 3)
while floor 1 can host both requested rooms with span 9; the single-floor
block [101, 110] still wins. -/
theorem allocateRooms_single_floor_priority_witness :
    (allocateRooms ((2 : Nat) : Rat) [110, 201, 101]).success = true
    ∧ ∃ f, ∀ r ∈ (allocateRooms ((2 : Nat) : Rat) [110, 201, 101]).allocatedRooms,
        extractFloor r = f :=
  allocateRooms_single_floor_priority 2 [110, 201, 101] (by decide) (by decide)
    (by decide) (by decide) (by decide) ⟨1, by decide⟩

/-! ### Cross-floor optimality -/

theorem length_le_one_of_nodup_const {l : List Nat} {f : Nat}
    (hnd : l.Nodup) (hall : ∀ x ∈ l, x = f) : l.length ≤ 1 := by
  cases l with
  | nil => simp
  | cons a t =>
    cases t with
    | nil => simp
    | cons b u =>
      exfalso
      have ha : a = f := hall a (List.mem_cons_self _ _)
      have hb : b = f := hall b (List.mem_cons_of_mem a (List.mem_cons_self _ _))
      rw [List.nodup_cons] at hnd
      exact hnd.1 (by rw [ha, hb]; exact List.mem_cons_self _ _)

theorem filter_floor_length_le_one {ids : List Nat}
    (h : (ids.map extractFloor).Nodup) (f : Nat) :
    (ids.filter (fun r => extractFloor r = f)).length ≤ 1 := by
  have hsub : ((ids.filter (fun r => extractFloor r = f)).map extractFloor).Sublist
      (ids.map extractFloor) := (List.filter_sublist ids).map extractFloor
  have hnd2 : ((ids.filter (fun r => extractFloor r = f)).map extractFloor).Nodup :=
    hsub.nodup h
  have hall : ∀ x ∈ (ids.filter (fun r => extractFloor r = f)).map extractFloor, x = f := by
    intro x hx
    obtain ⟨r, hr, rfl⟩ := List.mem_map.mp hx
    exact of_decide_eq_true (List.mem_filter.mp hr).2
  have := length_le_one_of_nodup_const hnd2 hall
  rw [List.length_map] at this
  exact this

theorem sortRoomNumbers_nodup {l : List Nat} (h : l.Nodup) : (sortRoomNumbers l).Nodup :=
  (sortRoomNumbers_perm l).nodup_iff.mpr h

/-- Claim C2: with valid, distinct availableIds none of whose floors holds
requestedCount of them, allocateRooms succeeds with a size-requestedCount
subset of availableIds whose groupSpan is minimum over all such subsets, and
among minimum-span subsets the returned one has the smallest lowest
identifier. -/
theorem allocateRooms_cross_floor_optimal (n : Nat) (ids : List Nat)
    (h1 : 1 ≤ n) (h5 : n ≤ 5) (hnd : ids.Nodup)
    (hv : ∀ r ∈ ids, isValidRoomNumber r = true)
    (hlen : n ≤ ids.length)
    (hnofl : ∀ f, (ids.filter (fun r => extractFloor r = f)).length < n) :
    (allocateRooms (n : Rat) ids).success = true
    ∧ (allocateRooms (n : Rat) ids).allocatedRooms.length = n
    ∧ (allocateRooms (n : Rat) ids).allocatedRooms.Nodup
    ∧ (∀ r ∈ (allocateRooms (n : Rat) ids).allocatedRooms, r ∈ ids)
    ∧ (∀ x ∈ (allocateRooms (n : Rat) ids).allocatedRooms,
        (allocateRooms (n : Rat) ids).allocatedRooms.headD 0 ≤ x)
    ∧ (∀ s : List Nat, s ⊆ ids → s.Nodup → s.length = n →
        spanLeB (calculateGroupSpan (allocateRooms (n : Rat) ids).allocatedRooms)
          (calculateGroupSpan s) = true)
    ∧ (∀ s : List Nat, s ⊆ ids → s.Nodup → s.length = n →
        calculateGroupSpan s =
          calculateGroupSpan (allocateRooms (n : Rat) ids).allocatedRooms →
        ∀ x ∈ s, (allocateRooms (n : Rat) ids).allocatedRooms.headD 0 ≤ x) := by
  rw [allocateRooms_natCast h1 h5 hlen]
  have hsb : singleFloorBestOf n ids = ⟨none, none, 0⟩ := by
    unfold singleFloorBestOf
    refine foldl_fixed _ _ _ ?_
    intro f hf
    rw [floorStep_eq]
    have hoffer : floorOffer ids n f = none := by
      unfold floorOffer
      rw [if_neg]
      rw [floorRoomsOf_length]
      exact Nat.not_le.mpr (hnofl f)
    rw [hoffer]
  obtain ⟨c, hc⟩ := findBestCrossFloorAllocation_isSome_of_valid hlen hv
  rw [allocateCore_cross (by rw [hsb]) hc]
  obtain ⟨hcsub, hclen⟩ := findBestCrossFloorAllocation_shape hc
  have hcsorted : List.Sorted (· ≤ ·) c := (sortRoomNumbers_sorted ids).sublist hcsub
  have hcc : sortRoomNumbers c = c :=
    List.eq_of_perm_of_sorted (sortRoomNumbers_perm c) (sortRoomNumbers_sorted c) hcsorted
  have hcnd : c.Nodup := hcsub.nodup (sortRoomNumbers_nodup hnd)
  have hcmem : ∀ r ∈ c, r ∈ ids := fun r hr =>
    (sortRoomNumbers_perm ids).mem_iff.mp (hcsub.mem hr)
  have hcv : ∀ r ∈ c, isValidRoomNumber r = true := fun r hr => hv r (hcmem r hr)
  obtain ⟨m, hm⟩ := calculateGroupSpan_isSome_of_valid hcv
  -- for every candidate subset s, the matching combination of the sorted list
  have hmatch : ∀ s : List Nat, s ⊆ ids → s.Nodup →
      ∃ c2, c2.Sublist (sortRoomNumbers ids) ∧ c2.Perm s ∧ List.Sorted (· ≤ ·) c2 := by
    intro s hs hsnd
    refine ⟨(sortRoomNumbers ids).filter (fun x => x ∈ s), List.filter_sublist _, ?_, ?_⟩
    · rw [List.perm_ext_iff_of_nodup ((sortRoomNumbers_nodup hnd).filter _) hsnd]
      intro a
      rw [List.mem_filter]
      constructor
      · rintro ⟨_, ha⟩
        exact of_decide_eq_true ha
      · intro ha
        exact ⟨(sortRoomNumbers_perm ids).mem_iff.mpr (hs ha), decide_eq_true ha⟩
    · exact (sortRoomNumbers_sorted ids).sublist (List.filter_sublist _)
  rw [hcc]
  refine ⟨rfl, hclen, hcnd, hcmem, ?_, ?_, ?_⟩
  · intro x hx
    exact headD_le_of_sorted hcsorted x hx
  · intro s hs hsnd hslen
    obtain ⟨c2, hc2sub, hc2perm, _⟩ := hmatch s hs hsnd
    rw [← calculateGroupSpan_perm hc2perm]
    exact findBestCrossFloorAllocation_min hc c2 hc2sub (by rw [hc2perm.length_eq, hslen])
  · intro s hs hsnd hslen hspan x hx
    obtain ⟨c2, hc2sub, hc2perm, hc2sorted⟩ := hmatch s hs hsnd
    have htie := findBestCrossFloorAllocation_tie hc (by rw [hm]; simp) c2 hc2sub
      (by rw [hc2perm.length_eq, hslen])
      (by rw [calculateGroupSpan_perm hc2perm, hspan])
    exact Nat.le_trans htie
      (headD_le_of_sorted hc2sorted x (hc2perm.mem_iff.mpr hx))

/-- Claim C2 witness: allocateRooms(2, [101, 510, 1007]) — no floor holds two
of the ids — returns [510, 1007] with travelTime 13, and that span is minimal
among all 2-element subsets. -/
theorem allocateRooms_cross_floor_optimal_witness :
    allocateRooms ((2 : Nat) : Rat) [101, 510, 1007] =
      ⟨true, [510, 1007], some 13, none⟩
    ∧ (∀ s : List Nat, s ⊆ [101, 510, 1007] → s.Nodup → s.length = 2 →
        spanLeB (calculateGroupSpan
            (allocateRooms ((2 : Nat) : Rat) [101, 510, 1007]).allocatedRooms)
          (calculateGroupSpan s) = true) :=
  ⟨by decide,
    (allocateRooms_cross_floor_optimal 2 [101, 510, 1007] (by decide) (by decide)
      (by decide) (by decide) (by decide)
      (fun f => Nat.lt_of_le_of_lt (filter_floor_length_le_one (by decide) f)
        (by omega))).2.2.2.2.2.1⟩

/-! ### Contiguous runs (claim C3) -/

/-- The rooms createRoomNumber f p, ..., createRoomNumber f (p+count-1): a
contiguous run of `count` rooms on floor `f` starting at position `p`. -/
def runList (count f p : Nat) : List Nat :=
  (List.range count).map (fun j => createRoomNumber f (p + j))

/-- The available positions on floor `f` contain a run of `count` consecutive
positions starting at `p`, within the floor's room range. -/
def hasRunAt (ids : List Nat) (count f p : Nat) : Prop :=
  1 ≤ f ∧ f ≤ 10 ∧ 1 ≤ p ∧ p + count ≤ getRoomsCountForFloor f + 1 ∧
    ∀ j, j < count → createRoomNumber f (p + j) ∈ ids

theorem runList_succ (m f p : Nat) :
    runList (m + 1) f p = createRoomNumber f p :: runList m f (p + 1) := by
  unfold runList
  rw [List.range_succ_eq_map, List.map_cons, List.map_map]
  refine congrArg₂ _ (by rw [Nat.add_zero]) ?_
  refine List.map_congr_left ?_
  intro j hj
  show createRoomNumber f (p + (j + 1)) = createRoomNumber f (p + 1 + j)
  unfold createRoomNumber
  omega

theorem runList_length (count f p : Nat) : (runList count f p).length = count := by
  unfold runList
  rw [List.length_map, List.length_range]

theorem mem_runList {count f p x : Nat} :
    x ∈ runList count f p ↔ ∃ j, j < count ∧ x = createRoomNumber f (p + j) := by
  unfold runList
  rw [List.mem_map]
  constructor
  · rintro ⟨j, hj, rfl⟩
    exact ⟨j, List.mem_range.mp hj, rfl⟩
  · rintro ⟨j, hj, rfl⟩
    exact ⟨j, List.mem_range.mpr hj, rfl⟩

theorem runList_sorted (count f p : Nat) : List.Sorted (· < ·) (runList count f p) := by
  induction count generalizing p with
  | zero => exact List.sorted_nil
  | succ m ih =>
    rw [runList_succ]
    refine List.Pairwise.cons ?_ (ih (p + 1))
    intro x hx
    obtain ⟨j, hj, rfl⟩ := mem_runList.mp hx
    unfold createRoomNumber
    omega

theorem runList_valid {count f p : Nat} (h1 : 1 ≤ f) (h10 : f ≤ 10) (hp : 1 ≤ p)
    (hpc : p + count ≤ getRoomsCountForFloor f + 1) :
    ∀ x ∈ runList count f p, isValidRoomNumber x = true := by
  intro x hx
  obtain ⟨j, hj, rfl⟩ := mem_runList.mp hx
  have hle10 := getRoomsCountForFloor_le_ten f
  have hpj : p + j < 100 := by omega
  have hfl : extractFloor (createRoomNumber f (p + j)) = f :=
    extractFloor_createRoomNumber hpj
  have hpos : extractPosition (createRoomNumber f (p + j)) = p + j :=
    extractPosition_createRoomNumber hpj
  rw [isValidRoomNumber_iff, hfl, hpos]
  unfold createRoomNumber
  refine ⟨by omega, h1, h10, by omega, by omega⟩

theorem runList_le {count f p x : Nat} (hx : x ∈ runList count f p) :
    createRoomNumber f p ≤ x ∧ x ≤ createRoomNumber f (p + (count - 1)) := by
  obtain ⟨j, hj, rfl⟩ := mem_runList.mp hx
  unfold createRoomNumber
  omega

theorem runList_headD {count f p : Nat} (h : 1 ≤ count) :
    (runList count f p).headD 0 = createRoomNumber f p := by
  cases count with
  | zero => omega
  | succ m => rw [runList_succ]; rfl

theorem runList_last_mem {count f p : Nat} (h : 1 ≤ count) :
    createRoomNumber f (p + (count - 1)) ∈ runList count f p :=
  mem_runList.mpr ⟨count - 1, by omega, rfl⟩

theorem runList_head_mem {count f p : Nat} (h : 1 ≤ count) :
    createRoomNumber f p ∈ runList count f p :=
  mem_runList.mpr ⟨0, by omega, by rw [Nat.add_zero]⟩

theorem runList_contiguous {count f p : Nat} (hbound : p + count ≤ 100) :
    isContiguousB (runList count f p) = true := by
  induction count generalizing p with
  | zero => rfl
  | succ m ih =>
    cases m with
    | zero => rfl
    | succ m2 =>
      rw [runList_succ]
      have hexp : runList (m2 + 1) f (p + 1) =
          createRoomNumber f (p + 1) :: runList m2 f (p + 1 + 1) := runList_succ m2 f (p + 1)
      rw [hexp]
      show (decide ((extractPosition (createRoomNumber f (p + 1)) : Int) -
          (extractPosition (createRoomNumber f p) : Int) = 1)
        && isContiguousB (createRoomNumber f (p + 1) :: runList m2 f (p + 1 + 1))) = true
      rw [Bool.and_eq_true]
      constructor
      · rw [extractPosition_createRoomNumber (by omega),
          extractPosition_createRoomNumber (by omega)]
        rw [decide_eq_true_iff]
        push_cast
        omega
      · rw [← hexp]
        refine ih ?_
        omega

theorem range_map_succ_shift (m a : Nat) :
    (List.range (m + 1)).map (fun j => a + j) = a :: (List.range m).map (fun j => a + 1 + j) := by
  rw [List.range_succ_eq_map, List.map_cons, List.map_map]
  refine congrArg₂ _ (by rw [Nat.add_zero]) ?_
  refine List.map_congr_left ?_
  intro j hj
  show a + (j + 1) = a + 1 + j
  omega

theorem strict_sorted_last_ge :
    ∀ {l : List Nat}, List.Sorted (· < ·) l → l ≠ [] →
      l.headD 0 + l.length ≤ l.getLastD 0 + 1 := by
  intro l
  induction l with
  | nil => intro _ h; exact absurd rfl h
  | cons x t ih =>
    intro hs _
    cases t with
    | nil => simp
    | cons y u =>
      have hrec := ih hs.of_cons (List.cons_ne_nil y u)
      have hxy : x < y := List.rel_of_sorted_cons hs y (List.mem_cons_self y u)
      have hlast : (x :: y :: u).getLastD 0 = (y :: u).getLastD 0 := by
        rw [List.getLastD_cons, getLastD_irrel]
      rw [hlast]
      simp only [List.length_cons, List.headD_cons] at hrec ⊢
      omega

theorem consecutive_of_sorted_span :
    ∀ {l : List Nat}, List.Sorted (· < ·) l → l ≠ [] →
      l.getLastD 0 + 1 = l.headD 0 + l.length →
      l = (List.range l.length).map (fun j => l.headD 0 + j) := by
  intro l
  induction l with
  | nil => intro _ h; exact absurd rfl h
  | cons x t ih =>
    intro hs _ hspan
    cases t with
    | nil =>
      show [x] = [x + 0]
      rw [Nat.add_zero]
    | cons y u =>
      have hxy : x < y := List.rel_of_sorted_cons hs y (List.mem_cons_self y u)
      have hlast : (x :: y :: u).getLastD 0 = (y :: u).getLastD 0 := by
        rw [List.getLastD_cons, getLastD_irrel]
      have hge := strict_sorted_last_ge hs.of_cons (List.cons_ne_nil y u)
      simp only [List.length_cons, List.headD_cons] at hspan hge ⊢
      rw [hlast] at hspan
      have hy : y = x + 1 := by
        omega
      have hrec := ih hs.of_cons (List.cons_ne_nil y u) (by
        simp only [List.length_cons, List.headD_cons]
        omega)
      simp only [List.length_cons, List.headD_cons] at hrec
      rw [range_map_succ_shift, ← hy, ← hrec]

theorem take_run :
    ∀ (k : Nat) (a : Nat) (t : List Nat), List.Sorted (· < ·) (a :: t) →
      (∀ j, j < k → a + j ∈ a :: t) →
      (a :: t).take k = (List.range k).map (fun j => a + j) := by
  intro k
  induction k with
  | zero => intro a t _ _; rfl
  | succ m ih =>
    intro a t hs hmem
    rw [range_map_succ_shift]
    cases m with
    | zero =>
      show (a :: t).take 1 = [a]
      rfl
    | succ m2 =>
      have ha1 : a + 1 ∈ a :: t := hmem 1 (by omega)
      have ha1t : a + 1 ∈ t := by
        rcases List.mem_cons.mp ha1 with h | h
        · omega
        · exact h
      cases t with
      | nil => cases ha1t
      | cons b u =>
        have hb : b = a + 1 := by
          have hab : a < b := List.rel_of_sorted_cons hs b (List.mem_cons_self b u)
          rcases List.mem_cons.mp ha1t with h | h
          · omega
          · have := List.rel_of_sorted_cons hs.of_cons _ h
            omega
        subst hb
        have hrec := ih (a + 1) u hs.of_cons (by
          intro j hj
          have hmemj := hmem (j + 1) (by omega)
          have harith : a + (j + 1) = a + 1 + j := by omega
          rw [harith] at hmemj
          rcases List.mem_cons.mp hmemj with h | h
          · omega
          · exact h)
        show a :: List.take (m2 + 1) ((a + 1) :: u) =
          a :: (List.range (m2 + 1)).map (fun j => a + 1 + j)
        rw [hrec]

theorem run_window :
    ∀ (s : List Nat), List.Sorted (· < ·) s → ∀ (k a : Nat), 1 ≤ k →
      (∀ j, j < k → a + j ∈ s) →
      ∃ i, i + k ≤ s.length ∧
        (s.drop i).take k = (List.range k).map (fun j => a + j) := by
  intro s
  induction s with
  | nil =>
    intro _ k a hk hmem
    have := hmem 0 (by omega)
    rw [Nat.add_zero] at this
    cases this
  | cons x t ih =>
    intro hs k a hk hmem
    rcases Nat.lt_trichotomy x a with hlt | heq | hgt
    · have hmem2 : ∀ j, j < k → a + j ∈ t := by
        intro j hj
        rcases List.mem_cons.mp (hmem j hj) with h | h
        · omega
        · exact h
      obtain ⟨i, hlen, heq⟩ := ih hs.of_cons k a hk hmem2
      exact ⟨i + 1, by simp only [List.length_cons]; omega,
        by rw [List.drop_succ_cons]; exact heq⟩
    · subst heq
      refine ⟨0, ?_, ?_⟩
      · have htake := take_run k x t hs hmem
        have := congrArg List.length htake
        rw [List.length_take, List.length_map, List.length_range] at this
        omega
      · rw [List.drop_zero]
        exact take_run k x t hs hmem
    · exfalso
      have := hmem 0 (by omega)
      rw [Nat.add_zero] at this
      rcases List.mem_cons.mp this with h | h
      · omega
      · have := List.rel_of_sorted_cons hs a h
        omega

theorem contiguous_consecutive :
    ∀ (w : List Nat) (f : Nat), isContiguousB w = true →
      (∀ x ∈ w, isValidRoomNumber x = true ∧ extractFloor x = f) →
      w = (List.range w.length).map (fun j => w.headD 0 + j) := by
  intro w
  induction w with
  | nil => intro _ _ _; rfl
  | cons x t ih =>
    intro f hcont hall
    cases t with
    | nil =>
      show [x] = [x + 0]
      rw [Nat.add_zero]
    | cons y u =>
      have hpair : (extractPosition y : Int) - (extractPosition x : Int) = 1 ∧
          isContiguousB (y :: u) = true := by
        have : (decide ((extractPosition y : Int) - (extractPosition x : Int) = 1)
            && isContiguousB (y :: u)) = true := hcont
        rw [Bool.and_eq_true, decide_eq_true_iff] at this
        exact this
      obtain ⟨hx1, hxf⟩ := hall x (List.mem_cons_self _ _)
      obtain ⟨hy1, hyf⟩ := hall y (List.mem_cons_of_mem x (List.mem_cons_self _ _))
      have hxd := valid_decomp hx1
      have hyd := valid_decomp hy1
      rw [hxf] at hxd
      rw [hyf] at hyd
      have hyx : y = x + 1 := by
        unfold createRoomNumber at hxd hyd
        have hpos : extractPosition y = extractPosition x + 1 := by
          have := hpair.1
          omega
        omega
      have hrec := ih f hpair.2 (fun z hz => hall z (List.mem_cons_of_mem x hz))
      simp only [List.length_cons, List.headD_cons] at hrec ⊢
      rw [range_map_succ_shift, ← hyx, ← hrec]

theorem groupSpan_sameFloor {w : List Nat} {f : Nat}
    (hs : List.Sorted (· ≤ ·) w)
    (hf : ∀ x ∈ w, extractFloor x = f)
    (hv : ∀ x ∈ w, isValidRoomNumber x = true)
    (hlen : 2 ≤ w.length) :
    calculateGroupSpan w =
      some (extractPosition (w.getLastD 0) - extractPosition (w.headD 0)) := by
  rw [calculateGroupSpan_big_valid hlen hv, hs.insertionSort_eq]
  have hne : w ≠ [] := by
    intro hcon
    rw [hcon] at hlen
    simp at hlen
  have hhmem := headD_mem hne
  have hlmem := getLastD_mem hne
  have hhv := hv _ hhmem
  have hlv := hv _ hlmem
  rw [calculateTravelTime_of_valid hhv hlv]
  by_cases heq : w.headD 0 = w.getLastD 0
  · rw [if_pos heq, heq]
    simp
  · rw [if_neg heq]
    have hle : w.headD 0 ≤ w.getLastD 0 := headD_le_of_sorted hs _ hlmem
    have hposle : extractPosition (w.headD 0) ≤ extractPosition (w.getLastD 0) := by
      have hfh := hf _ hhmem
      have hfl := hf _ hlmem
      exact (posLe_iff_le_of_floor_eq (hfh.trans hfl.symm)).mpr hle
    unfold calculateVerticalTime calculateHorizontalTime TRAVEL_TIME.VERTICAL_PER_FLOOR
      TRAVEL_TIME.HORIZONTAL_PER_ROOM
    rw [hf _ hhmem, hf _ hlmem]
    simp only
    refine congrArg _ ?_
    omega

theorem positions_nodup {w : List Nat} {f : Nat}
    (hnd : w.Nodup) (hf : ∀ x ∈ w, extractFloor x = f)
    (hv : ∀ x ∈ w, isValidRoomNumber x = true) :
    (w.map extractPosition).Nodup := by
  refine hnd.map_on ?_
  intro x hx y hy hxy
  have hxd := valid_decomp (hv x hx)
  have hyd := valid_decomp (hv y hy)
  rw [hf x hx] at hxd
  rw [hf y hy] at hyd
  rw [hxd, hyd, hxy]

theorem span_lower {w : List Nat} {f k m : Nat}
    (hs : List.Sorted (· ≤ ·) w) (hnd : w.Nodup)
    (hf : ∀ x ∈ w, extractFloor x = f)
    (hv : ∀ x ∈ w, isValidRoomNumber x = true)
    (hk : w.length = k) (hm : calculateGroupSpan w = some m) : k ≤ m + 1 := by
  by_cases hsmall : k ≤ 1
  · omega
  · have hlen : 2 ≤ w.length := by omega
    rw [groupSpan_sameFloor hs hf hv hlen] at hm
    have hmval : m = extractPosition (w.getLastD 0) - extractPosition (w.headD 0) := by
      injection hm with h2
      exact h2.symm
    have hne : w ≠ [] := by
      intro hcon
      rw [hcon] at hlen
      simp at hlen
    have hsubset : ∀ y ∈ w.map extractPosition,
        y ∈ List.range' (extractPosition (w.headD 0)) (m + 1) := by
      intro y hy
      obtain ⟨x, hx, rfl⟩ := List.mem_map.mp hy
      have hge : w.headD 0 ≤ x := headD_le_of_sorted hs x hx
      have hle : x ≤ w.getLastD 0 := le_getLastD_of_sorted hs x hx
      have hp1 : extractPosition (w.headD 0) ≤ extractPosition x :=
        (posLe_iff_le_of_floor_eq ((hf _ (headD_mem hne)).trans (hf x hx).symm)).mpr hge
      have hp2 : extractPosition x ≤ extractPosition (w.getLastD 0) :=
        (posLe_iff_le_of_floor_eq ((hf x hx).trans (hf _ (getLastD_mem hne)).symm)).mpr hle
      rw [List.mem_range'_1]
      omega
    have hsubperm := List.subperm_of_subset (positions_nodup hnd hf hv) hsubset
    have hlenle := hsubperm.length_le
    rw [List.length_map, List.length_range'] at hlenle
    omega

theorem runList_nodup (count f p : Nat) : (runList count f p).Nodup :=
  (runList_sorted count f p).imp (fun h => Nat.ne_of_lt h)

theorem runList_floor {count f p : Nat} (hpc : p + count ≤ 100) :
    ∀ x ∈ runList count f p, extractFloor x = f := by
  intro x hx
  obtain ⟨j, hj, rfl⟩ := mem_runList.mp hx
  exact extractFloor_createRoomNumber (by omega)

theorem runList_span {n g p : Nat} (h1 : 1 ≤ n) (hg1 : 1 ≤ g) (hg10 : g ≤ 10)
    (hp : 1 ≤ p) (hpc : p + n ≤ getRoomsCountForFloor g + 1) :
    calculateGroupSpan (runList n g p) = some (n - 1) := by
  have hr10 := getRoomsCountForFloor_le_ten g
  by_cases hsmall : n ≤ 1
  · have hn1 : n = 1 := by omega
    subst hn1
    rw [calculateGroupSpan_small (by rw [runList_length])]
  · have hlen : 2 ≤ (runList n g p).length := by rw [runList_length]; omega
    have hfl : ∀ x ∈ runList n g p, extractFloor x = g := runList_floor (by omega)
    have hvl : ∀ x ∈ runList n g p, isValidRoomNumber x = true :=
      runList_valid hg1 hg10 hp hpc
    have hsle : List.Sorted (· ≤ ·) (runList n g p) :=
      (runList_sorted n g p).imp (fun h => Nat.le_of_lt h)
    rw [groupSpan_sameFloor hsle hfl hvl hlen]
    have hne : runList n g p ≠ [] := by
      intro hcon
      rw [hcon] at hlen
      simp at hlen
    have hhead : (runList n g p).headD 0 = createRoomNumber g p := runList_headD h1
    have hlast : (runList n g p).getLastD 0 = createRoomNumber g (p + (n - 1)) :=
      getLastD_eq_of_max hsle hne (runList_last_mem h1) (fun x hx => (runList_le hx).2)
    rw [hhead, hlast, extractPosition_createRoomNumber (by omega),
      extractPosition_createRoomNumber (by omega)]
    refine congrArg _ (by omega)

theorem sortedFloorRooms_floor {ids : List Nat} {g : Nat} :
    ∀ x ∈ sortByPosition (floorRoomsOf ids g), extractFloor x = g := fun x hx =>
  floorRoomsOf_floor x ((sortByPosition_perm _).mem_iff.mp hx)

theorem sortedFloorRooms_sorted_le (ids : List Nat) (g : Nat) :
    List.Sorted (· ≤ ·) (sortByPosition (floorRoomsOf ids g)) :=
  sortByPosition_sorted_le_of_sameFloor (fun x hx => floorRoomsOf_floor x hx)

theorem sortedFloorRooms_nodup {ids : List Nat} {g : Nat} (hnd : ids.Nodup) :
    (sortByPosition (floorRoomsOf ids g)).Nodup :=
  (sortByPosition_perm _).nodup_iff.mpr (floorRoomsOf_nodup hnd)

theorem sortedFloorRooms_sorted_lt {ids : List Nat} {g : Nat} (hnd : ids.Nodup) :
    List.Sorted (· < ·) (sortByPosition (floorRoomsOf ids g)) :=
  sorted_lt_of_sorted_le_nodup (sortedFloorRooms_sorted_le ids g) (sortedFloorRooms_nodup hnd)

theorem block_facts {n g : Nat} {ids b : List Nat}
    (hnd : ids.Nodup) (hv : ∀ r ∈ ids, isValidRoomNumber r = true)
    (hb : findBestSameFloorBlock (floorRoomsOf ids g) n = some b) :
    b.length = n ∧ List.Sorted (· ≤ ·) b ∧ b.Nodup ∧
      (∀ x ∈ b, extractFloor x = g) ∧ (∀ x ∈ b, isValidRoomNumber x = true) ∧
      (∀ x ∈ b, x ∈ ids) := by
  obtain ⟨hsub, hlen⟩ := findBestSameFloorBlock_shape hb
  have hmem : ∀ x ∈ b, x ∈ sortByPosition (floorRoomsOf ids g) := fun x hx => hsub.mem hx
  have hmemids : ∀ x ∈ b, x ∈ ids := fun x hx =>
    floorRoomsOf_subset x ((sortByPosition_perm _).mem_iff.mp (hmem x hx))
  exact ⟨hlen, (sortedFloorRooms_sorted_le ids g).sublist hsub,
    hsub.nodup (sortedFloorRooms_nodup hnd),
    fun x hx => sortedFloorRooms_floor x (hmem x hx),
    fun x hx => hv x (hmemids x hx), hmemids⟩

theorem sameFloorBlock_span_lower {n g m : Nat} {ids b : List Nat}
    (hnd : ids.Nodup) (hv : ∀ r ∈ ids, isValidRoomNumber r = true)
    (hb : findBestSameFloorBlock (floorRoomsOf ids g) n = some b)
    (hm : calculateGroupSpan b = some m) : n ≤ m + 1 := by
  obtain ⟨hlen, hsle, hbnd, hbf, hbv, _⟩ := block_facts hnd hv hb
  exact span_lower hsle hbnd hbf hbv hlen hm

theorem hasRunAt_p100 {ids : List Nat} {n g p : Nat} (hrun : hasRunAt ids n g p) :
    p + n ≤ 100 := by
  obtain ⟨_, _, _, hpc, _⟩ := hrun
  have := getRoomsCountForFloor_le_ten g
  omega

theorem runList_mem_floorRooms {ids : List Nat} {n g p : Nat}
    (hrun : hasRunAt ids n g p) :
    ∀ x ∈ runList n g p, x ∈ floorRoomsOf ids g := by
  obtain ⟨hg1, hg10, hp1, hpc, hmem⟩ := hrun
  have hp100 : p + n ≤ 100 := hasRunAt_p100 ⟨hg1, hg10, hp1, hpc, hmem⟩
  intro x hx
  obtain ⟨j, hj, rfl⟩ := mem_runList.mp hx
  refine (sortByPosition_perm _).mem_iff.mpr (List.mem_filter.mpr ⟨hmem j hj, ?_⟩)
  exact decide_eq_true (extractFloor_createRoomNumber (by omega))

theorem hasRunAt_guard {ids : List Nat} {n g p : Nat}
    (hnd : ids.Nodup) (hrun : hasRunAt ids n g p) :
    n ≤ (floorRoomsOf ids g).length := by
  have hsub := List.subperm_of_subset (runList_nodup n g p) (runList_mem_floorRooms hrun)
  have := hsub.length_le
  rw [runList_length] at this
  exact this

theorem run_filtered_window {ids : List Nat} {n g p : Nat} (h1 : 1 ≤ n)
    (hnd : ids.Nodup) (hrun : hasRunAt ids n g p) :
    runList n g p ∈
      (windowsOf (sortByPosition (floorRoomsOf ids g)) n).filter isContiguousB := by
  have hp100 : p + n ≤ 100 := hasRunAt_p100 hrun
  have hmem_s : ∀ j, j < n → createRoomNumber g p + j ∈
      sortByPosition (floorRoomsOf ids g) := by
    intro j hj
    have harith : createRoomNumber g p + j = createRoomNumber g (p + j) := by
      unfold createRoomNumber
      omega
    rw [harith]
    exact (sortByPosition_perm _).mem_iff.mpr
      (runList_mem_floorRooms hrun _ (mem_runList.mpr ⟨j, hj, rfl⟩))
  obtain ⟨i, hiLen, heqw⟩ :=
    run_window _ (sortedFloorRooms_sorted_lt hnd) n (createRoomNumber g p) h1 hmem_s
  have hweq : ((sortByPosition (floorRoomsOf ids g)).drop i).take n = runList n g p := by
    rw [heqw]
    unfold runList
    refine List.map_congr_left ?_
    intro j hj
    unfold createRoomNumber
    omega
  rw [← hweq]
  refine List.mem_filter.mpr ⟨?_, ?_⟩
  · exact mem_windowsOf.mpr ⟨i, by omega, rfl⟩
  · rw [hweq]
    exact runList_contiguous hp100

theorem sameFloorBlock_run_shape {n g : Nat} {ids b : List Nat} (h1 : 1 ≤ n)
    (hnd : ids.Nodup) (hv : ∀ r ∈ ids, isValidRoomNumber r = true)
    (hb : findBestSameFloorBlock (floorRoomsOf ids g) n = some b)
    (hspan : calculateGroupSpan b = some (n - 1)) :
    b = runList n g (extractPosition (b.headD 0))
    ∧ hasRunAt ids n g (extractPosition (b.headD 0)) := by
  obtain ⟨hlen, hsle, hbnd, hbf, hbv, hbids⟩ := block_facts hnd hv hb
  have hne : b ≠ [] := by
    intro hcon
    rw [hcon] at hlen
    simp at hlen
    omega
  have hslt : List.Sorted (· < ·) b := sorted_lt_of_sorted_le_nodup hsle hbnd
  have hheadmem := headD_mem hne
  have hlastmem := getLastD_mem hne
  have hheadv := hbv _ hheadmem
  have hheadd := valid_decomp hheadv
  rw [hbf _ hheadmem] at hheadd
  -- the span forces the last room to sit exactly count-1 positions after the head
  have hconsec : b.getLastD 0 + 1 = b.headD 0 + n := by
    by_cases hn1 : n ≤ 1
    · have : n = 1 := by omega
      subst this
      obtain ⟨a, ha⟩ := List.length_eq_one.mp hlen
      rw [ha]
      rfl
    · have hsp := groupSpan_sameFloor hsle hbf hbv (by omega)
      rw [hspan] at hsp
      have hposeq : n - 1 = extractPosition (b.getLastD 0) - extractPosition (b.headD 0) := by
        injection hsp with h2
      have hheadle : b.headD 0 ≤ b.getLastD 0 := headD_le_of_sorted hsle _ hlastmem
      have hposle : extractPosition (b.headD 0) ≤ extractPosition (b.getLastD 0) :=
        (posLe_iff_le_of_floor_eq ((hbf _ hheadmem).trans (hbf _ hlastmem).symm)).mpr hheadle
      have hlastd := valid_decomp (hbv _ hlastmem)
      rw [hbf _ hlastmem] at hlastd
      unfold createRoomNumber at hheadd hlastd
      omega
  have hheadd2 : b.headD 0 = 100 * g + extractPosition (b.headD 0) := by
    unfold createRoomNumber at hheadd
    omega
  have hshape := consecutive_of_sorted_span hslt hne (by rw [hlen]; exact hconsec)
  rw [hlen] at hshape
  have hbrun : b = runList n g (extractPosition (b.headD 0)) := by
    refine hshape.trans ?_
    unfold runList
    refine List.map_congr_left ?_
    intro j hj
    unfold createRoomNumber
    omega
  refine ⟨hbrun, ?_⟩
  obtain ⟨_, hf1, hf10, hp1, hpmax⟩ := isValidRoomNumber_iff.mp hheadv
  rw [hbf _ hheadmem] at hf1 hf10 hpmax
  have hlastmem2 := getLastD_mem hne
  have hlastv := hbv _ hlastmem2
  obtain ⟨_, _, _, hlp1, hlpmax⟩ := isValidRoomNumber_iff.mp hlastv
  rw [hbf _ hlastmem2] at hlpmax
  have hlastd := valid_decomp hlastv
  rw [hbf _ hlastmem2] at hlastd
  have hlastpos : extractPosition (b.getLastD 0) = extractPosition (b.headD 0) + (n - 1) := by
    unfold createRoomNumber at hlastd
    omega
  refine ⟨hf1, hf10, hp1, by omega, ?_⟩
  intro j hj
  refine hbids _ ?_
  have hmem2 : createRoomNumber g (extractPosition (b.headD 0) + j) ∈
      runList n g (extractPosition (b.headD 0)) := mem_runList.mpr ⟨j, hj, rfl⟩
  rw [← hbrun] at hmem2
  exact hmem2

instance hasRunAtDecidable (ids : List Nat) (c f p : Nat) :
    Decidable (hasRunAt ids c f p) := by
  unfold hasRunAt
  infer_instance

theorem floor_with_run {ids : List Nat} {n g p : Nat} (h1 : 1 ≤ n)
    (hnd : ids.Nodup) (hv : ∀ r ∈ ids, isValidRoomNumber r = true)
    (hrun : hasRunAt ids n g p) :
    ∃ b, findBestSameFloorBlock (floorRoomsOf ids g) n = some b
      ∧ calculateGroupSpan b = some (n - 1)
      ∧ ∀ p2, hasRunAt ids n g p2 → b.headD 0 ≤ createRoomNumber g p2 := by
  have hguard := hasRunAt_guard hnd hrun
  have hw := run_filtered_window h1 hnd hrun
  have hwspan : calculateGroupSpan (runList n g p) = some (n - 1) :=
    runList_span h1 hrun.1 hrun.2.1 hrun.2.2.1 hrun.2.2.2.1
  obtain ⟨b, hbfold⟩ := foldl_stepBest_some_of_finite hw hwspan
  have hnshort : ¬ (floorRoomsOf ids g).length < n := by omega
  have hcont : findBestContiguousBlock (floorRoomsOf ids g) n = some b := by
    rw [findBestContiguousBlock_def hnshort]
    exact hbfold
  have hsf := findBestSameFloorBlock_of_contiguous hnshort hcont
  have hmin := foldl_stepBest_min hbfold _ hw
  rw [hwspan] at hmin
  obtain ⟨m, hm, hmle⟩ := spanLeB_some_right hmin
  have hlow := sameFloorBlock_span_lower hnd hv hsf hm
  have hspanb : calculateGroupSpan b = some (n - 1) := by
    rw [hm]
    exact congrArg some (by omega)
  refine ⟨b, hsf, hspanb, ?_⟩
  intro p2 hrun2
  have hw2 := run_filtered_window h1 hnd hrun2
  have hw2span : calculateGroupSpan (runList n g p2) = some (n - 1) :=
    runList_span h1 hrun2.1 hrun2.2.1 hrun2.2.2.1 hrun2.2.2.2.1
  have htie := foldl_stepBest_tie hbfold (by rw [hspanb]; simp) _ hw2
    (by rw [hw2span, hspanb])
  rw [runList_headD h1] at htie
  exact htie

/-- Claim C3: when some floor's available positions contain a run of
requestedCount consecutive positions, allocateRooms returns a single-floor
contiguous block (exactly a runList): its travel time is requestedCount - 1,
minimal among all qualifying runs; ties within the winning floor go to the
smaller starting position (hence the smaller lowest identifier), and ties
across floors to the lower floor. -/
theorem allocateRooms_contiguous_run (n : Nat) (ids : List Nat)
    (h1 : 1 ≤ n) (h5 : n ≤ 5) (hnd : ids.Nodup)
    (hv : ∀ r ∈ ids, isValidRoomNumber r = true)
    (hlen : n ≤ ids.length)
    (hrun : ∃ f p, hasRunAt ids n f p) :
    (allocateRooms (n : Rat) ids).success = true
    ∧ ∃ f p, hasRunAt ids n f p
        ∧ (allocateRooms (n : Rat) ids).allocatedRooms = runList n f p
        ∧ (allocateRooms (n : Rat) ids).travelTime = some (n - 1)
        ∧ (∀ f2 p2, hasRunAt ids n f2 p2 →
            spanLeB (allocateRooms (n : Rat) ids).travelTime
              (calculateGroupSpan (runList n f2 p2)) = true)
        ∧ (∀ f2 p2, hasRunAt ids n f2 p2 → f ≤ f2 ∧ (f2 = f → p ≤ p2)) := by
  rw [allocateRooms_natCast h1 h5 hlen]
  obtain ⟨f0, p0, hrun0⟩ := hrun
  obtain ⟨b0, hsf0, hspan0, _⟩ := floor_with_run h1 hnd hv hrun0
  have hguard0 := hasRunAt_guard hnd hrun0
  have hoffer0 : floorOffer ids n f0 = some b0 := by
    unfold floorOffer
    rw [if_pos hguard0, hsf0]
  have hfr0 : f0 ∈ List.range' 1 HOTEL_CONFIG.TOTAL_FLOORS := by
    rw [List.mem_range'_1]
    unfold HOTEL_CONFIG.TOTAL_FLOORS
    have := hrun0.1
    have := hrun0.2.1
    omega
  obtain ⟨hcons, _, hminf, _, _, htief⟩ :=
    foldl_floorStep_spec ids n (List.range' 1 HOTEL_CONFIG.TOTAL_FLOORS) ⟨none, none, 0⟩ rfl
  rw [singleFloorBestOf_eq] at hcons hminf htief
  obtain ⟨b, hb⟩ := singleFloorBestOf_isSome hfr0 hguard0 hv
  rw [allocateCore_single hb]
  have htt : (singleFloorBestOf n ids).tt = calculateGroupSpan b := by
    rw [hcons, hb]
    rfl
  obtain ⟨fw, hfwmem, hgw, hfindw, hfloorw⟩ := singleFloorBestOf_some hb
  have hminle := hminf f0 hfr0 b0 hoffer0
  rw [hspan0] at hminle
  obtain ⟨m, hm, hmle⟩ := spanLeB_some_right hminle
  have hmb : calculateGroupSpan b = some m := by rw [← htt]; exact hm
  have hlow := sameFloorBlock_span_lower hnd hv hfindw hmb
  have hmeq : m = n - 1 := by omega
  subst hmeq
  have httval : (singleFloorBestOf n ids).tt = some (n - 1) := hm
  have hspanb : calculateGroupSpan b = some (n - 1) := hmb
  obtain ⟨hbshape, hrunw⟩ := sameFloorBlock_run_shape h1 hnd hv hfindw hspanb
  have hsorteq : sortRoomNumbers b = b := by
    obtain ⟨_, hsle, _, _, _, _⟩ := block_facts hnd hv hfindw
    exact List.eq_of_perm_of_sorted (sortRoomNumbers_perm b) (sortRoomNumbers_sorted b) hsle
  refine ⟨rfl, fw, extractPosition (b.headD 0), hrunw, ?_, httval, ?_, ?_⟩
  · show sortRoomNumbers b = runList n fw (extractPosition (b.headD 0))
    rw [hsorteq]
    exact hbshape
  · intro f2 p2 hrun2
    have hw2span : calculateGroupSpan (runList n f2 p2) = some (n - 1) :=
      runList_span h1 hrun2.1 hrun2.2.1 hrun2.2.2.1 hrun2.2.2.2.1
    show spanLeB (singleFloorBestOf n ids).tt (calculateGroupSpan (runList n f2 p2)) = true
    rw [httval, hw2span]
    exact spanLeB_refl _
  · intro f2 p2 hrun2
    obtain ⟨b2, hsf2, hspan2, _⟩ := floor_with_run h1 hnd hv hrun2
    have hguard2 := hasRunAt_guard hnd hrun2
    have hoffer2 : floorOffer ids n f2 = some b2 := by
      unfold floorOffer
      rw [if_pos hguard2, hsf2]
    have hfr2 : f2 ∈ List.range' 1 HOTEL_CONFIG.TOTAL_FLOORS := by
      rw [List.mem_range'_1]
      unfold HOTEL_CONFIG.TOTAL_FLOORS
      have := hrun2.1
      have := hrun2.2.1
      omega
    constructor
    · have := htief f2 hfr2 b2 hoffer2 (by rw [httval, hspan2])
      rw [hfloorw] at this
      exact this
    · intro hf2eq
      subst hf2eq
      obtain ⟨b3, hsf3, _, hheadmin3⟩ := floor_with_run h1 hnd hv hrunw
      have hb3 : b3 = b := by
        rw [hfindw] at hsf3
        injection hsf3 with h2
        exact h2.symm
      have := hheadmin3 p2 hrun2
      rw [hb3] at this
      have hheadval : b.headD 0 = createRoomNumber f2 (extractPosition (b.headD 0)) := by
        have hne : b ≠ [] := by
          intro hcon
          obtain ⟨hlen2, _, _, _, _, _⟩ := block_facts hnd hv hfindw
          rw [hcon] at hlen2
          simp at hlen2
          omega
        obtain ⟨_, _, _, hbf, hbv, _⟩ := block_facts hnd hv hfindw
        have := valid_decomp (hbv _ (headD_mem hne))
        rw [hbf _ (headD_mem hne)] at this
        exact this
      rw [hheadval] at this
      unfold createRoomNumber at this
      omega

/-- Claim C3 witness: with [101, 102, 301] and requestedCount 2, floor 1 holds
the contiguous run [101, 102], which is returned with travel time 1. -/
theorem allocateRooms_contiguous_run_witness :
    (allocateRooms ((2 : Nat) : Rat) [101, 102, 301]).success = true
    ∧ ∃ f p, hasRunAt [101, 102, 301] 2 f p
        ∧ (allocateRooms ((2 : Nat) : Rat) [101, 102, 301]).allocatedRooms = runList 2 f p
        ∧ (allocateRooms ((2 : Nat) : Rat) [101, 102, 301]).travelTime = some (2 - 1)
        ∧ (∀ f2 p2, hasRunAt [101, 102, 301] 2 f2 p2 →
            spanLeB (allocateRooms ((2 : Nat) : Rat) [101, 102, 301]).travelTime
              (calculateGroupSpan (runList 2 f2 p2)) = true)
        ∧ (∀ f2 p2, hasRunAt [101, 102, 301] 2 f2 p2 → f ≤ f2 ∧ (f2 = f → p ≤ p2)) :=
  allocateRooms_contiguous_run 2 [101, 102, 301] (by decide) (by decide) (by decide)
    (by decide) (by decide) ⟨1, 1, by decide⟩
